import Mathlib

/-!
Verification of the beorg2journelly task synchronizer.

This file shallowly embeds the core of `src/main.py` — the Task model, the
two line-oriented parsers (`BeOrgParser`, `JournellyParser`), their
formatters, and `TaskSynchronizer.synchronize` — and proves properties of
the embedding.  Text is modelled as `List Char` (Python strings), Python
`datetime` values as a minute-precision `Timestamp` record holding only
calendar-valid field combinations at the points where `datetime` would
raise, and Python dicts as insertion-ordered association lists.
-/

namespace B2J

/-- Minute-precision calendar timestamp, embedding the Python `datetime`
values that `datetime.strptime(s, "%Y-%m-%d %a %H:%M")` produces. -/
structure Timestamp where
  year : Nat
  month : Nat
  day : Nat
  hour : Nat
  minute : Nat
deriving DecidableEq, Repr, Inhabited

/-- Python `datetime` comparison is lexicographic on the fields. -/
def Timestamp.lt (a b : Timestamp) : Bool :=
  if a.year ≠ b.year then decide (a.year < b.year)
  else if a.month ≠ b.month then decide (a.month < b.month)
  else if a.day ≠ b.day then decide (a.day < b.day)
  else if a.hour ≠ b.hour then decide (a.hour < b.hour)
  else decide (a.minute < b.minute)

/-- Python `min(a, b)`: returns `b` exactly when `b < a`, else `a`. -/
def tsMin (a b : Timestamp) : Timestamp :=
  if Timestamp.lt b a then b else a

/-- The `Task` NamedTuple of `main.py`: content, timestamp, completion.
Content is the verbatim task text (modelled as a list of characters). -/
structure Task where
  content : List Char
  timestamp : Timestamp
  is_completed : Bool
deriving DecidableEq, Repr, Inhabited

/-! ### Python dict as insertion-ordered association list -/

/-- `m[k] = v` on a Python dict: overwrite in place if the key exists
(keeping its position), otherwise append at the end. -/
def dictInsert : List (List Char × Task) → List Char → Task →
    List (List Char × Task)
  | [], k, v => [(k, v)]
  | (k', v') :: rest, k, v =>
    if k' = k then (k', v) :: rest else (k', v') :: dictInsert rest k v

/-- `m.get(k)` on a Python dict. -/
def dictGet : List (List Char × Task) → List Char → Option Task
  | [], _ => none
  | (k', v') :: rest, k => if k' = k then some v' else dictGet rest k

/-- The keys of the dict, in insertion order. -/
def dictKeys (m : List (List Char × Task)) : List (List Char) :=
  m.map Prod.fst

/-- `{task.content: task for task in tasks}` — the content→Task lookup
dictionary built by `TaskSynchronizer.synchronize`; on duplicate contents
the last-seen task wins. -/
def byContent (tasks : List Task) : List (List Char × Task) :=
  tasks.foldl (fun m t => dictInsert m t.content t) []

/-- Keep the first occurrence of each element, in order.  Models the
iteration over `set(beorg_by_content.keys()) | set(journelly_by_content.keys())`
with a canonical deterministic order (Python's set iteration order is
unspecified; every property proved below about task membership and the
paired result lists is insensitive to that order). -/
def dedupFirst : List (List Char) → List (List Char)
  | [] => []
  | k :: rest => k :: (dedupFirst rest).filter (fun x => x ≠ k)

/-- The body of the `for content in all_contents` loop of
`TaskSynchronizer.synchronize`: the task appended to both result lists for
a given content key, if any.  Mirrors the present-in-both merge
(earlier timestamp, OR of completion, dropped when completed) and the
present-in-one branch (dropped when completed, else kept unchanged). -/
def syncOne (mB mJ : List (List Char × Task)) (content : List Char) :
    Option Task :=
  match dictGet mB content, dictGet mJ content with
  | some bt, some jt =>
    let earlier := tsMin bt.timestamp jt.timestamp
    let done := bt.is_completed || jt.is_completed
    if done then none else some ⟨content, earlier, done⟩
  | some t, none => if t.is_completed then none else some t
  | none, some t => if t.is_completed then none else some t
  | none, none => none

/-- The synchronize loop: iterate the content keys, appending the surviving
task (if any) to both result lists. -/
def syncLoop (mB mJ : List (List Char × Task)) :
    List (List Char) → List Task × List Task
  | [] => ([], [])
  | c :: cs =>
    let rest := syncLoop mB mJ cs
    match syncOne mB mJ c with
    | some t => (t :: rest.1, t :: rest.2)
    | none => rest

/-- `TaskSynchronizer.synchronize`: build the two content→Task dicts,
iterate the union of their key sets, and return the two result lists. -/
def synchronize (beorg journelly : List Task) : List Task × List Task :=
  let mB := byContent beorg
  let mJ := byContent journelly
  syncLoop mB mJ (dedupFirst (dictKeys mB ++ dictKeys mJ))

/-- Every entry of the content dictionary satisfies `value.content = key`. -/
def contentInv (m : List (List Char × Task)) : Prop :=
  ∀ k t, dictGet m k = some t → t.content = k

/-! ### Text model: Python string primitives -/

/-- Whitespace as stripped by Python `str.strip`: every character for
which `str.isspace()` holds — the ASCII controls 9–13 and 28–31, the
space, NEL (U+0085), NBSP (U+00A0), U+1680, U+2000–U+200A, the line and
paragraph separators U+2028/U+2029, U+202F, U+205F and U+3000. -/
def pyIsSpace (c : Char) : Bool :=
  c.toNat ∈ [9, 10, 11, 12, 13, 28, 29, 30, 31, 32, 133, 160, 5760,
    8192, 8193, 8194, 8195, 8196, 8197, 8198, 8199, 8200, 8201, 8202,
    8232, 8233, 8239, 8287, 12288]

/-- Python `str.strip()`: drop leading and trailing whitespace. -/
def pyStrip (l : List Char) : List Char :=
  ((l.dropWhile pyIsSpace).reverse.dropWhile pyIsSpace).reverse

/-- Python `str.split("\n")`: split at every newline, keeping empty pieces. -/
def splitLines : List Char → List (List Char)
  | [] => [[]]
  | c :: rest =>
    if c = '\n' then [] :: splitLines rest
    else
      match splitLines rest with
      | [] => [[c]]
      | l :: ls => (c :: l) :: ls

/-- `s.startswith(pat)`: the first argument is the pattern. -/
def startsWith : List Char → List Char → Bool
  | [], _ => true
  | _ :: _, [] => false
  | p :: ps, c :: cs => p = c && startsWith ps cs

/-- Word character of the regex class `\w`, restricted to the ASCII range
(the inputs relevant here — digits and weekday abbreviations — are ASCII). -/
def isWordChar (c : Char) : Bool :=
  c.isAlpha || c.isDigit || c = '_'

/-! ### Timestamp regular expression and `strptime` -/

/-- Match exactly `n` digit characters at the front. -/
def takeDigits (n : Nat) (l : List Char) : Option (List Char × List Char) :=
  let pre := l.take n
  if pre.length = n && pre.all Char.isDigit then some (pre, l.drop n) else none

/-- Match exactly three `\w` characters at the front. -/
def takeWord3 (l : List Char) : Option (List Char × List Char) :=
  match l with
  | c1 :: c2 :: c3 :: rest =>
    if isWordChar c1 && isWordChar c2 && isWordChar c3 then
      some ([c1, c2, c3], rest)
    else none
  | _ => none

/-- Match one literal character at the front. -/
def expectChar (c : Char) : List Char → Option (List Char)
  | [] => none
  | x :: rest => if x = c then some rest else none

/-- The capture group `\d{4}-\d{2}-\d{2} \w{3} \d{2}:\d{2}` shared by both
parsers' regular expressions: returns (matched text, remaining input). -/
def matchTsCore (l : List Char) : Option (List Char × List Char) := do
  let (d4, l1) ← takeDigits 4 l
  let l2 ← expectChar '-' l1
  let (mo, l3) ← takeDigits 2 l2
  let l4 ← expectChar '-' l3
  let (dd, l5) ← takeDigits 2 l4
  let l6 ← expectChar ' ' l5
  let (w, l7) ← takeWord3 l6
  let l8 ← expectChar ' ' l7
  let (hh, l9) ← takeDigits 2 l8
  let l10 ← expectChar ':' l9
  let (mi, l11) ← takeDigits 2 l10
  some (d4 ++ ('-' :: (mo ++ ('-' :: (dd ++ (' ' :: (w ++ (' ' :: (hh ++
    (':' :: mi))))))))), l11)

/-- `re.match(r'\[(\d{4}-\d{2}-\d{2} \w{3} \d{2}:\d{2})\]', line)` of the
BeOrg parser: anchored at the start only, trailing characters after `]`
are permitted; returns group 1. -/
def beorgTsMatch (line : List Char) : Option (List Char) :=
  match line with
  | '[' :: rest =>
    match matchTsCore rest with
    | some (g, rest2) =>
      match expectChar ']' rest2 with
      | some _ => some g
      | none => none
    | none => none
  | _ => none

/-- `re.match(r'\* \[(\d{4}-\d{2}-\d{2} \w{3} \d{2}:\d{2})\] @ -', line)` of
the Journelly parser: anchored at the start only, trailing characters after
`@ -` are permitted; returns group 1. -/
def journellyHeaderMatch (line : List Char) : Option (List Char) :=
  match line with
  | '*' :: ' ' :: '[' :: rest =>
    match matchTsCore rest with
    | some (g, rest2) =>
      match rest2 with
      | ']' :: ' ' :: '@' :: ' ' :: '-' :: _ => some g
      | _ => none
    | none => none
  | _ => none

/-- Decimal value of a digit string. -/
def digitsToNat (l : List Char) : Nat :=
  l.foldl (fun n c => 10 * n + (c.toNat - '0'.toNat)) 0

/-- Match one or two digits (greedy), as `strptime` does for `%m`, `%d`,
`%H`, `%M`. -/
def takeDigits12 : List Char → Option (List Char × List Char)
  | [] => none
  | [c1] => if c1.isDigit then some ([c1], []) else none
  | c1 :: c2 :: rest =>
    if c1.isDigit then
      if c2.isDigit then some ([c1, c2], rest) else some ([c1], c2 :: rest)
    else none

/-- The lowercase weekday abbreviations accepted (case-insensitively) by
`strptime`'s `%a` in the C locale. -/
def dowAbbrevsLower : List (List Char) :=
  [['m', 'o', 'n'], ['t', 'u', 'e'], ['w', 'e', 'd'], ['t', 'h', 'u'],
   ['f', 'r', 'i'], ['s', 'a', 't'], ['s', 'u', 'n']]

def isLeapYear (y : Nat) : Bool :=
  y % 4 = 0 && (y % 100 ≠ 0 || y % 400 = 0)

def daysInMonth (y m : Nat) : Nat :=
  if m = 2 then (if isLeapYear y then 29 else 28)
  else if m = 4 || m = 6 || m = 9 || m = 11 then 30
  else 31

/-- The `datetime(...)` constructor: validates the calendar ranges that
Python `datetime` enforces (`ValueError` outside them, modelled as `none`). -/
def mkDatetime (y mo d h mi : Nat) : Option Timestamp :=
  if decide (1 ≤ y) && decide (y ≤ 9999) && decide (1 ≤ mo) &&
      decide (mo ≤ 12) && decide (1 ≤ d) && decide (d ≤ daysInMonth y mo) &&
      decide (h ≤ 23) && decide (mi ≤ 59) then
    some ⟨y, mo, d, h, mi⟩
  else none

/-- `datetime.strptime(s, "%Y-%m-%d %a %H:%M")`: four-digit year, greedy
1–2 digit numeric fields, a case-insensitive weekday abbreviation for `%a`
(accepted but not checked against the date), and the `datetime` range
validation; `none` models `ValueError`. -/
def strptimeTs (l : List Char) : Option Timestamp := do
  let (ys, l1) ← takeDigits 4 l
  let l2 ← expectChar '-' l1
  let (ms, l3) ← takeDigits12 l2
  let l4 ← expectChar '-' l3
  let (ds, l5) ← takeDigits12 l4
  let l6 ← expectChar ' ' l5
  let (dow, l7) ← (match l6 with
    | c1 :: c2 :: c3 :: rest => some (([c1, c2, c3] : List Char), rest)
    | _ => none)
  if (dow.map Char.toLower) ∈ dowAbbrevsLower then
    let l8 ← expectChar ' ' l7
    let (hs, l9) ← takeDigits12 l8
    let l10 ← expectChar ':' l9
    let (mins, l11) ← takeDigits12 l10
    if l11 = [] then
      mkDatetime (digitsToNat ys) (digitsToNat ms) (digitsToNat ds)
        (digitsToNat hs) (digitsToNat mins)
    else none
  else none

/-! ### Parser warning messages (the f-strings of `main.py`) -/

def beorgInvalidTsWarning (tsStr : List Char) : List Char :=
  "Skipping entry in BeOrg file due to invalid timestamp: '".toList ++
    tsStr ++ "'".toList

def beorgMalformedWarning (header : List Char) : List Char :=
  "Skipping malformed BeOrg task (timestamp missing or wrong format): '".toList
    ++ header ++ "'".toList

def beorgEofWarning (header : List Char) : List Char :=
  "Skipping BeOrg task at end of file (timestamp missing): '".toList ++
    header ++ "'".toList

def journellyMalformedWarning (line : List Char) : List Char :=
  "Skipping malformed Journelly entry (task line missing after timestamp): '".toList
    ++ line ++ "'".toList

def journellyEofWarning (line : List Char) : List Char :=
  "Skipping malformed Journelly entry (task line missing at end of file): '".toList
    ++ line ++ "'".toList

def journellyInvalidTsWarning (tsStr : List Char) : List Char :=
  "Skipping entry in Journelly file due to invalid timestamp: '".toList ++
    tsStr ++ "'".toList

/-! ### The two parsers -/

/-- `BeOrgParser._parse_task_from_line` together with its helper
`_parse_beorg_timestamp_and_create_task`: takes the current (stripped)
line and the following raw line if any; returns the parsed task if any,
the number of **extra** lines consumed (the loop advances by
`1 + lines_consumed`), and the warnings appended. -/
def beorgParseTaskFromLine (line : List Char) (next? : Option (List Char)) :
    Option Task × Nat × List (List Char) :=
  if startsWith ("* TODO ".toList) line || startsWith ("* DONE ".toList) line
  then
    let is_done := startsWith ("* DONE ".toList) line
    let content := line.drop 7
    match next? with
    | none => (none, 0, [beorgEofWarning line])
    | some nl =>
      let next := pyStrip nl
      match beorgTsMatch next with
      | none => (none, 0, [beorgMalformedWarning line])
      | some g =>
        match strptimeTs g with
        | some ts => (some ⟨content, ts, is_done⟩, 1, [])
        | none => (none, 0, [beorgInvalidTsWarning g])
  else (none, 0, [])

/-- The scan loop of `BeOrgParser._parse_tasks`: examine the stripped
current line, append the parsed task if any, and advance by
`1 + lines_consumed` lines (the step function only ever reports 0 or 1
extra lines). Returns (tasks, warnings). -/
def beorgParseLines : List (List Char) → List Task × List (List Char)
  | [] => ([], [])
  | [l] =>
    let r := beorgParseTaskFromLine (pyStrip l) none
    (r.1.toList, r.2.2)
  | l :: l2 :: rest =>
    let r := beorgParseTaskFromLine (pyStrip l) (some l2)
    if r.2.1 = 0 then
      let next := beorgParseLines (l2 :: rest)
      (r.1.toList ++ next.1, r.2.2 ++ next.2)
    else
      let next := beorgParseLines rest
      (r.1.toList ++ next.1, r.2.2 ++ next.2)

/-- `BeOrgParser._parse_tasks`: strip the whole content, split on newlines,
scan. -/
def beorgParseTasks (content : List Char) : List Task × List (List Char) :=
  beorgParseLines (splitLines (pyStrip content))

/-- `JournellyParser._parse_journelly_task_from_line`: match the timestamp
header, parse the timestamp, then require a checkbox task line as the next
line. Returns the task if any, the number of extra lines consumed, and the
warnings appended. -/
def journellyParseTaskFromLine (line : List Char)
    (next? : Option (List Char)) : Option Task × Nat × List (List Char) :=
  match journellyHeaderMatch line with
  | none => (none, 0, [])
  | some g =>
    match strptimeTs g with
    | none => (none, 0, [journellyInvalidTsWarning g])
    | some ts =>
      match next? with
      | none => (none, 0, [journellyEofWarning line])
      | some nl =>
        let next := pyStrip nl
        if startsWith ("- [ ] ".toList) next ||
            startsWith ("- [X] ".toList) next then
          (some ⟨next.drop 6, ts, startsWith ("- [X] ".toList) next⟩, 1, [])
        else (none, 0, [journellyMalformedWarning line])

/-- The scan loop of `JournellyParser._parse_tasks`. -/
def journellyParseLines : List (List Char) → List Task × List (List Char)
  | [] => ([], [])
  | [l] =>
    let r := journellyParseTaskFromLine (pyStrip l) none
    (r.1.toList, r.2.2)
  | l :: l2 :: rest =>
    let r := journellyParseTaskFromLine (pyStrip l) (some l2)
    if r.2.1 = 0 then
      let next := journellyParseLines (l2 :: rest)
      (r.1.toList ++ next.1, r.2.2 ++ next.2)
    else
      let next := journellyParseLines rest
      (r.1.toList ++ next.1, r.2.2 ++ next.2)

/-- `JournellyParser._parse_tasks`. -/
def journellyParseTasks (content : List Char) :
    List Task × List (List Char) :=
  journellyParseLines (splitLines (pyStrip content))

/-! ### The two formatters -/

/-- Low decimal digit of `n` as a character. -/
def digitChar (n : Nat) : Char := Char.ofNat ('0'.toNat + n % 10)

/-- `%02d` for values below 100 (all month/day/hour/minute fields). -/
def nat2 (n : Nat) : List Char := [digitChar (n / 10), digitChar n]

/-- `%Y` zero-padded to four digits; agrees with the platform `strftime`
for years 1000–9999, the only years the round-trip results below cover. -/
def nat4 (n : Nat) : List Char :=
  [digitChar (n / 1000), digitChar (n / 100), digitChar (n / 10), digitChar n]

/-- Day-of-week index of a calendar date (Sakamoto's method; 0 = Sunday). -/
def dowIndex (y m d : Nat) : Nat :=
  let y' := if m < 3 then y - 1 else y
  let t := [0, 3, 2, 5, 0, 3, 5, 1, 4, 6, 2, 4]
  (y' + y' / 4 - y' / 100 + y' / 400 + t.getD (m - 1) 0 + d) % 7

/-- The capitalized weekday abbreviations produced by `strftime %a` in the
C locale, indexed Sunday-first. -/
def dowNames : List (List Char) :=
  [['S', 'u', 'n'], ['M', 'o', 'n'], ['T', 'u', 'e'], ['W', 'e', 'd'],
   ['T', 'h', 'u'], ['F', 'r', 'i'], ['S', 'a', 't']]

/-- `strftime %a`: the weekday token regenerated from the date fields. -/
def dowAbbrev (y m d : Nat) : List Char :=
  dowNames.getD (dowIndex y m d) []

/-- `timestamp.strftime('%Y-%m-%d %a %H:%M')`. -/
def formatTs (t : Timestamp) : List Char :=
  nat4 t.year ++ ('-' :: (nat2 t.month ++ ('-' :: (nat2 t.day ++ (' ' ::
    (dowAbbrev t.year t.month t.day ++ (' ' :: (nat2 t.hour ++ (':' ::
      nat2 t.minute)))))))))

/-- `BeOrgParser._format_tasks`: two lines per task. -/
def beorgFormatTasks : List Task → List (List Char)
  | [] => []
  | t :: rest =>
    ('*' :: (' ' :: ((if t.is_completed then "DONE".toList
        else "TODO".toList) ++ (' ' :: t.content)))) ::
    (('[' :: formatTs t.timestamp) ++ [']']) ::
    beorgFormatTasks rest

/-- `JournellyParser._format_tasks`: two lines per task. -/
def journellyFormatTasks : List Task → List (List Char)
  | [] => []
  | t :: rest =>
    ("* [".toList ++ (formatTs t.timestamp ++ "] @ -".toList)) ::
    ("- ".toList ++ ((if t.is_completed then "[X]".toList
        else "[ ]".toList) ++ (' ' :: t.content))) ::
    journellyFormatTasks rest

/-- The file text produced by `write_file`: lines joined with a newline and
a single trailing newline when nonempty, the empty text otherwise. -/
def joinLines (ls : List (List Char)) : List Char :=
  match ls with
  | [] => []
  | _ => (ls.map (fun l => l ++ ['\n'])).flatten

/-- Lines interleaved with single newlines and no trailing newline (the
form `joinLines` output takes after the whole-text strip). -/
def interNL : List (List Char) → List Char
  | [] => []
  | [l] => l
  | l :: l2 :: rest => l ++ ('\n' :: interNL (l2 :: rest))

/-! ### Side conditions for the round-trip property -/

/-- Contents that survive the line-level processing unchanged: nonempty, no
embedded newline, and no trailing whitespace (which `str.strip` on the
line would remove). -/
def contentSafe (c : List Char) : Bool :=
  !c.isEmpty && c.all (fun ch => ch ≠ '\n') && !(pyIsSpace (c.getLastD ' '))

/-- Timestamps whose formatted text reparses to the same value: the Python
`datetime` calendar ranges with a four-digit year. -/
def validTs (t : Timestamp) : Bool :=
  decide (1000 ≤ t.year) && decide (t.year ≤ 9999) && decide (1 ≤ t.month) &&
  decide (t.month ≤ 12) && decide (1 ≤ t.day) &&
  decide (t.day ≤ daysInMonth t.year t.month) && decide (t.hour ≤ 23) &&
  decide (t.minute ≤ 59)

/-! ### Day-of-week equivalence of inputs (for the cosmetic-token claim) -/

/-- The fixed-width digit blocks of the timestamp capture group. -/
def digitBlock (n : Nat) (l : List Char) : Prop :=
  l.length = n ∧ l.all Char.isDigit = true

def tsShape (d4 mo dd hh mi : List Char) : Prop :=
  digitBlock 4 d4 ∧ digitBlock 2 mo ∧ digitBlock 2 dd ∧ digitBlock 2 hh ∧
    digitBlock 2 mi

/-- The text of a timestamp capture group assembled from its fields. -/
def tsCoreText (d4 mo dd w hh mi : List Char) : List Char :=
  d4 ++ ('-' :: (mo ++ ('-' :: (dd ++ (' ' :: (w ++ (' ' :: (hh ++
    (':' :: mi)))))))))

/-- Two raw lines that are equal, or are both BeOrg timestamp lines of the
same shape differing only in the (valid) weekday token. -/
def beorgDowEq (l1 l2 : List Char) : Prop :=
  l1 = l2 ∨ ∃ d4 mo dd w1 w2 hh mi tail,
    tsShape d4 mo dd hh mi ∧ w1 ∈ dowNames ∧ w2 ∈ dowNames ∧
    pyStrip l1 = '[' :: (tsCoreText d4 mo dd w1 hh mi ++ tail) ∧
    pyStrip l2 = '[' :: (tsCoreText d4 mo dd w2 hh mi ++ tail)

/-- Check for the fixed `] @ -` suffix of the Journelly header pattern:
what the header regular expression requires right after the capture
group. -/
def journellySuffix : List Char → Option Unit
  | ']' :: ' ' :: '@' :: ' ' :: '-' :: _ => some ()
  | _ => none

/-- Two raw lines that are equal, or are both Journelly timestamp headers
of the same shape differing only in the (valid) weekday token. -/
def journellyDowEq (l1 l2 : List Char) : Prop :=
  l1 = l2 ∨ ∃ d4 mo dd w1 w2 hh mi tail,
    tsShape d4 mo dd hh mi ∧ w1 ∈ dowNames ∧ w2 ∈ dowNames ∧
    pyStrip l1 = '*' :: (' ' :: ('[' ::
      (tsCoreText d4 mo dd w1 hh mi ++ tail))) ∧
    pyStrip l2 = '*' :: (' ' :: ('[' ::
      (tsCoreText d4 mo dd w2 hh mi ++ tail)))

/-! ### Dictionary lemmas -/

theorem dictGet_dictInsert (m : List (List Char × Task)) (k c : List Char)
    (v : Task) :
    dictGet (dictInsert m k v) c = if k = c then some v else dictGet m c := by
  induction m with
  | nil =>
    by_cases h : k = c <;> simp [dictInsert, dictGet, h]
  | cons p rest ih =>
    obtain ⟨k', v'⟩ := p
    by_cases h1 : k' = k
    · subst h1
      by_cases h2 : k' = c <;> simp [dictInsert, dictGet, h2]
    · by_cases h2 : k' = c
      · subst h2
        have hkc : ¬ k = k' := fun h => h1 h.symm
        simp [dictInsert, dictGet, h1, hkc]
      · simp [dictInsert, dictGet, h1, h2, ih]

theorem dictGet_eq_getLast (tasks : List Task) (c : List Char)
    (m : List (List Char × Task)) :
    dictGet (tasks.foldl (fun m t => dictInsert m t.content t) m) c =
      ((tasks.filter (fun t => t.content = c)).getLast?).orElse
        (fun _ => dictGet m c) := by
  induction tasks generalizing m with
  | nil => simp [List.filter]
  | cons t rest ih =>
    rw [List.foldl_cons, ih]
    by_cases h : t.content = c
    · subst h
      cases hfl : rest.filter (fun u => decide (u.content = t.content)) with
      | nil => simp [List.filter_cons, hfl, dictGet_dictInsert]
      | cons f fs =>
        have h2 : (t :: f :: fs).getLast? = (f :: fs).getLast? :=
          List.getLast?_cons_cons
        cases hu : (f :: fs).getLast? with
        | none => simp at hu
        | some u => simp [List.filter_cons, hfl, h2, hu]
    · simp [List.filter_cons, h, dictGet_dictInsert, Ne.symm h]

/-- The content→Task dict maps each content to the **last** task with that
content, in list order (Python dict "last one read wins"). -/
theorem dictGet_byContent (tasks : List Task) (c : List Char) :
    dictGet (byContent tasks) c =
      (tasks.filter (fun t => t.content = c)).getLast? := by
  rw [byContent, dictGet_eq_getLast]
  cases h : (tasks.filter (fun t => t.content = c)).getLast? <;>
    simp [dictGet, h, Option.orElse]

theorem dictKeys_dictInsert (m : List (List Char × Task)) (k : List Char)
    (v : Task) :
    dictKeys (dictInsert m k v) =
      if k ∈ dictKeys m then dictKeys m else dictKeys m ++ [k] := by
  induction m with
  | nil => simp [dictInsert, dictKeys]
  | cons p rest ih =>
    obtain ⟨k', v'⟩ := p
    by_cases h : k' = k
    · subst h
      simp [dictInsert, dictKeys]
    · have hne : ¬ k = k' := fun hh => h hh.symm
      simp only [dictInsert, if_neg h, dictKeys, List.map_cons,
        List.mem_cons] at ih ⊢
      rw [ih]
      by_cases hm : k ∈ List.map Prod.fst rest
      · simp [hm, hne]
      · simp [hm, hne]

theorem dictKeys_nodup_dictInsert (m : List (List Char × Task))
    (k : List Char) (v : Task) (h : (dictKeys m).Nodup) :
    (dictKeys (dictInsert m k v)).Nodup := by
  rw [dictKeys_dictInsert]
  by_cases hm : k ∈ dictKeys m
  · simpa [hm]
  · simp [hm, List.nodup_append, h]

/-- The content dictionary has pairwise-distinct keys: duplicates collapse
to a single entry. -/
theorem byContent_keys_nodup (tasks : List Task) :
    (dictKeys (byContent tasks)).Nodup := by
  rw [byContent]
  generalize hm : ([] : List (List Char × Task)) = m
  have hnd : (dictKeys m).Nodup := by simp [← hm, dictKeys]
  clear hm
  induction tasks generalizing m with
  | nil => simpa
  | cons t rest ih => exact ih _ (dictKeys_nodup_dictInsert _ _ _ hnd)

theorem dictGet_isSome_iff_mem_keys (m : List (List Char × Task))
    (c : List Char) : (dictGet m c).isSome = true ↔ c ∈ dictKeys m := by
  induction m with
  | nil => simp [dictGet, dictKeys]
  | cons p rest ih =>
    obtain ⟨k', v'⟩ := p
    by_cases h : k' = c
    · subst h
      simp [dictGet, dictKeys]
    · simp [dictGet, dictKeys, h, Ne.symm h, ih]

theorem contentInv_byContent (tasks : List Task) :
    contentInv (byContent tasks) := by
  intro k t h
  rw [dictGet_byContent] at h
  have hmem := List.mem_of_getLast?_eq_some h
  have := (List.mem_filter.mp hmem).2
  simpa using this

/-! ### dedupFirst lemmas -/

theorem mem_dedupFirst (l : List (List Char)) (x : List Char) :
    x ∈ dedupFirst l ↔ x ∈ l := by
  induction l with
  | nil => simp [dedupFirst]
  | cons k rest ih =>
    by_cases h : x = k
    · subst h; simp [dedupFirst]
    · simp [dedupFirst, h, List.mem_filter, ih]

theorem nodup_dedupFirst (l : List (List Char)) : (dedupFirst l).Nodup := by
  induction l with
  | nil => simp [dedupFirst]
  | cons k rest ih =>
    simp only [dedupFirst, List.nodup_cons]
    constructor
    · intro hmem
      have h2 := (List.mem_filter.mp hmem).2
      simp at h2
    · exact ih.filter _

theorem dedupFirst_append (l1 l2 : List (List Char)) :
    dedupFirst (l1 ++ l2) =
      dedupFirst l1 ++ (dedupFirst l2).filter (fun x => x ∉ l1) := by
  induction l1 with
  | nil => simp [dedupFirst]
  | cons k rest ih =>
    rw [List.cons_append, dedupFirst, dedupFirst, ih, List.filter_append,
      List.filter_filter, List.cons_append]
    congr 1
    congr 1
    apply List.filter_congr
    intro a _
    by_cases hak : a = k
    · simp [hak]
    · by_cases har : a ∈ rest <;> simp [hak, har]

theorem dedupFirst_eq_self (l : List (List Char)) (h : l.Nodup) :
    dedupFirst l = l := by
  induction l with
  | nil => rfl
  | cons k rest ih =>
    have hk : k ∉ rest := (List.nodup_cons.mp h).1
    rw [dedupFirst, ih (List.nodup_cons.mp h).2, List.filter_eq_self.mpr]
    intro a ha
    simp only [ne_eq, decide_eq_true_eq]
    intro hak
    exact hk (hak ▸ ha)

theorem dedupFirst_self_append (l : List (List Char)) (h : l.Nodup) :
    dedupFirst (l ++ l) = l := by
  have hfil : l.filter (fun x => x ∉ l) = [] := by
    apply List.filter_eq_nil_iff.mpr
    intro a ha
    simp [ha]
  rw [dedupFirst_append, dedupFirst_eq_self l h, hfil, List.append_nil]

/-! ### syncLoop lemmas -/

theorem syncLoop_fst_eq_snd (mB mJ : List (List Char × Task))
    (cs : List (List Char)) : (syncLoop mB mJ cs).1 = (syncLoop mB mJ cs).2 := by
  induction cs with
  | nil => rfl
  | cons c rest ih =>
    simp only [syncLoop]
    cases syncOne mB mJ c <;> simp [ih]

theorem syncOne_content (mB mJ : List (List Char × Task)) (c : List Char)
    (t : Task) (hB : contentInv mB) (hJ : contentInv mJ)
    (h : syncOne mB mJ c = some t) : t.content = c := by
  unfold syncOne at h
  cases hgB : dictGet mB c with
  | none =>
    cases hgJ : dictGet mJ c with
    | none => simp [hgB, hgJ] at h
    | some jt =>
      simp only [hgB, hgJ] at h
      cases hc : jt.is_completed <;> simp [hc] at h
      rw [← h]
      exact hJ c jt hgJ
  | some bt =>
    cases hgJ : dictGet mJ c with
    | none =>
      simp only [hgB, hgJ] at h
      cases hc : bt.is_completed <;> simp [hc] at h
      rw [← h]
      exact hB c bt hgB
    | some jt =>
      simp only [hgB, hgJ] at h
      cases hc : bt.is_completed || jt.is_completed with
      | true => simp [hc] at h
      | false =>
        simp [hc] at h
        rw [← h]

theorem syncOne_incomplete (mB mJ : List (List Char × Task)) (c : List Char)
    (t : Task) (h : syncOne mB mJ c = some t) : t.is_completed = false := by
  unfold syncOne at h
  cases hgB : dictGet mB c with
  | none =>
    cases hgJ : dictGet mJ c with
    | none => simp [hgB, hgJ] at h
    | some jt =>
      simp only [hgB, hgJ] at h
      cases hc : jt.is_completed <;> simp [hc] at h
      rw [← h]
      exact hc
  | some bt =>
    cases hgJ : dictGet mJ c with
    | none =>
      simp only [hgB, hgJ] at h
      cases hc : bt.is_completed <;> simp [hc] at h
      rw [← h]
      exact hc
    | some jt =>
      simp only [hgB, hgJ] at h
      cases hc : bt.is_completed || jt.is_completed with
      | true => simp [hc] at h
      | false =>
        simp [hc] at h
        rw [← h]

theorem mem_syncLoop_content (mB mJ : List (List Char × Task))
    (cs : List (List Char)) (t : Task) (hB : contentInv mB)
    (hJ : contentInv mJ) (h : t ∈ (syncLoop mB mJ cs).1) : t.content ∈ cs := by
  induction cs with
  | nil => simp [syncLoop] at h
  | cons c rest ih =>
    simp only [syncLoop] at h
    cases ho : syncOne mB mJ c with
    | none =>
      simp only [ho] at h
      exact List.mem_cons_of_mem _ (ih h)
    | some u =>
      simp only [ho, List.mem_cons] at h
      cases h with
      | inl h => rw [h, syncOne_content mB mJ c u hB hJ ho]; simp
      | inr h => exact List.mem_cons_of_mem _ (ih h)

theorem syncLoop_filter_not_mem (mB mJ : List (List Char × Task))
    (cs : List (List Char)) (c : List Char) (hB : contentInv mB)
    (hJ : contentInv mJ) (h : c ∉ cs) :
    (syncLoop mB mJ cs).1.filter (fun t => t.content = c) = [] := by
  rw [List.filter_eq_nil_iff]
  intro t ht
  simp only [decide_eq_true_eq]
  intro hc
  exact h (hc ▸ mem_syncLoop_content mB mJ cs t hB hJ ht)

theorem syncLoop_filter (mB mJ : List (List Char × Task))
    (cs : List (List Char)) (c : List Char) (hB : contentInv mB)
    (hJ : contentInv mJ) (hnd : cs.Nodup) (hc : c ∈ cs) :
    (syncLoop mB mJ cs).1.filter (fun t => t.content = c) =
      (syncOne mB mJ c).toList := by
  induction cs with
  | nil => simp at hc
  | cons k rest ih =>
    rcases List.mem_cons.mp hc with h | h
    · subst h
      have hrest : c ∉ rest := (List.nodup_cons.mp hnd).1
      simp only [syncLoop]
      cases ho : syncOne mB mJ c with
      | none =>
        simp only [ho, Option.toList]
        exact syncLoop_filter_not_mem mB mJ rest c hB hJ hrest
      | some t =>
        have hct := syncOne_content mB mJ c t hB hJ ho
        simp only [ho, Option.toList, List.filter_cons, hct]
        simp [syncLoop_filter_not_mem mB mJ rest c hB hJ hrest]
    · have hkc : k ≠ c := by
        intro hk
        exact (List.nodup_cons.mp hnd).1 (hk ▸ h)
      simp only [syncLoop]
      cases ho : syncOne mB mJ k with
      | none => exact ih (List.nodup_cons.mp hnd).2 h
      | some t =>
        have hct := syncOne_content mB mJ k t hB hJ ho
        simp only [List.filter_cons, hct, hkc]
        simpa [hkc] using ih (List.nodup_cons.mp hnd).2 h

theorem tsMin_self (t : Timestamp) : tsMin t t = t := by
  simp [tsMin, Timestamp.lt]

theorem syncLoop_incomplete (mB mJ : List (List Char × Task))
    (cs : List (List Char)) (t : Task) (h : t ∈ (syncLoop mB mJ cs).1) :
    t.is_completed = false := by
  induction cs with
  | nil => simp [syncLoop] at h
  | cons c rest ih =>
    simp only [syncLoop] at h
    cases ho : syncOne mB mJ c with
    | none =>
      simp only [ho] at h
      exact ih h
    | some u =>
      simp only [ho, List.mem_cons] at h
      cases h with
      | inl h => exact h ▸ syncOne_incomplete mB mJ c u ho
      | inr h => exact ih h

theorem syncLoop_contents_sublist (mB mJ : List (List Char × Task))
    (cs : List (List Char)) (hB : contentInv mB) (hJ : contentInv mJ) :
    ((syncLoop mB mJ cs).1.map Task.content).Sublist cs := by
  induction cs with
  | nil => simp [syncLoop]
  | cons c rest ih =>
    simp only [syncLoop]
    cases ho : syncOne mB mJ c with
    | none => exact ih.cons c
    | some t =>
      have hct := syncOne_content mB mJ c t hB hJ ho
      simpa [hct] using ih.cons₂ c

theorem syncLoop_congr (mB mJ mB' mJ' : List (List Char × Task))
    (cs : List (List Char))
    (h : ∀ c ∈ cs, dictGet mB c = dictGet mB' c ∧ dictGet mJ c = dictGet mJ' c) :
    syncLoop mB mJ cs = syncLoop mB' mJ' cs := by
  induction cs with
  | nil => rfl
  | cons c rest ih =>
    have hc := h c (by simp)
    have hone : syncOne mB mJ c = syncOne mB' mJ' c := by
      unfold syncOne
      rw [hc.1, hc.2]
    simp only [syncLoop, hone, ih (fun k hk => h k (List.mem_cons_of_mem _ hk))]

theorem dictInsert_not_mem (m : List (List Char × Task)) (k : List Char)
    (v : Task) (h : k ∉ dictKeys m) : dictInsert m k v = m ++ [(k, v)] := by
  induction m with
  | nil => rfl
  | cons p rest ih =>
    obtain ⟨k', v'⟩ := p
    have hk : k' ≠ k := by
      intro hh
      exact h (by simp [dictKeys, hh])
    have hrest : k ∉ dictKeys rest := by
      intro hh
      exact h (by simp [dictKeys] at hh ⊢; exact Or.inr hh)
    simp [dictInsert, hk, ih hrest]

theorem foldl_dictInsert_pairs (tasks : List Task)
    (m : List (List Char × Task))
    (hdisj : ∀ t ∈ tasks, t.content ∉ dictKeys m)
    (hnd : (tasks.map Task.content).Nodup) :
    tasks.foldl (fun m t => dictInsert m t.content t) m =
      m ++ tasks.map (fun t => (t.content, t)) := by
  induction tasks generalizing m with
  | nil => simp
  | cons t rest ih =>
    have h1 : ∀ u ∈ rest, u.content ∉ dictKeys (m ++ [(t.content, t)]) := by
      intro u hu hmem
      simp only [dictKeys, List.map_append, List.mem_append] at hmem
      cases hmem with
      | inl hmem => exact hdisj u (List.mem_cons_of_mem _ hu) hmem
      | inr hmem =>
        simp only [List.map_cons, List.map_nil, List.mem_singleton] at hmem
        rw [List.map_cons] at hnd
        have := (List.nodup_cons.mp hnd).1
        exact this (hmem ▸ List.mem_map_of_mem Task.content hu)
    rw [List.map_cons] at hnd
    rw [List.foldl_cons, dictInsert_not_mem m t.content t (hdisj t (by simp)),
      ih (m ++ [(t.content, t)]) h1 (List.nodup_cons.mp hnd).2]
    simp

/-- On a collection with pairwise-distinct contents the content dictionary
is just the list of `(content, task)` pairs in order. -/
theorem byContent_pairs (r : List Task) (hnd : (r.map Task.content).Nodup) :
    byContent r = r.map (fun t => (t.content, t)) := by
  rw [byContent, foldl_dictInsert_pairs r [] (by simp [dictKeys]) hnd]
  simp

theorem dictKeys_pairs (r : List Task) :
    dictKeys (r.map (fun t => (t.content, t))) = r.map Task.content := by
  simp [dictKeys, List.map_map]

theorem syncLoop_pairs (r : List Task) (hnd : (r.map Task.content).Nodup)
    (hinc : ∀ t ∈ r, t.is_completed = false) :
    syncLoop (r.map (fun t => (t.content, t))) (r.map (fun t => (t.content, t)))
      (r.map Task.content) = (r, r) := by
  induction r with
  | nil => rfl
  | cons t rest ih =>
    rw [List.map_cons] at hnd
    obtain ⟨tc, tts, td⟩ := t
    have hdone : td = false := by simpa using hinc ⟨tc, tts, td⟩ (by simp)
    subst hdone
    have hhd : dictGet ((tc, Task.mk tc tts false) ::
        rest.map (fun t => (t.content, t))) tc = some (Task.mk tc tts false) := by
      simp [dictGet]
    have hone : syncOne
        ((tc, Task.mk tc tts false) :: rest.map (fun t => (t.content, t)))
        ((tc, Task.mk tc tts false) :: rest.map (fun t => (t.content, t)))
        tc = some (Task.mk tc tts false) := by
      unfold syncOne
      rw [hhd]
      simp [tsMin_self]
    have hnotin : tc ∉ rest.map Task.content := (List.nodup_cons.mp hnd).1
    have hcongr : syncLoop
        ((tc, Task.mk tc tts false) :: rest.map (fun t => (t.content, t)))
        ((tc, Task.mk tc tts false) :: rest.map (fun t => (t.content, t)))
        (rest.map Task.content) =
        syncLoop (rest.map (fun t => (t.content, t)))
          (rest.map (fun t => (t.content, t))) (rest.map Task.content) := by
      apply syncLoop_congr
      intro c hcmem
      have hne : ¬ tc = c := by
        intro hh
        exact hnotin (hh ▸ hcmem)
      simp [dictGet, hne]
    simp only [List.map_cons, syncLoop, hcongr,
      ih (List.nodup_cons.mp hnd).2
        (fun u hu => hinc u (List.mem_cons_of_mem _ hu)), hone]

theorem synchronize_eq (A B : List Task) :
    synchronize A B = syncLoop (byContent A) (byContent B)
      (dedupFirst (dictKeys (byContent A) ++ dictKeys (byContent B))) := rfl

theorem sync_fst_eq_snd (A B : List Task) :
    (synchronize A B).1 = (synchronize A B).2 := by
  rw [synchronize_eq]
  exact syncLoop_fst_eq_snd _ _ _

theorem synchronize_self (r : List Task) (hnd : (r.map Task.content).Nodup)
    (hinc : ∀ t ∈ r, t.is_completed = false) : synchronize r r = (r, r) := by
  rw [synchronize_eq, byContent_pairs r hnd, dictKeys_pairs,
    dedupFirst_self_append _ hnd, syncLoop_pairs r hnd hinc]

theorem sync_result_contents_nodup (A B : List Task) :
    ((synchronize A B).1.map Task.content).Nodup := by
  rw [synchronize_eq]
  exact (syncLoop_contents_sublist _ _ _ (contentInv_byContent A)
    (contentInv_byContent B)).nodup (nodup_dedupFirst _)

theorem sync_result_incomplete (A B : List Task) (t : Task)
    (h : t ∈ (synchronize A B).1) : t.is_completed = false := by
  rw [synchronize_eq] at h
  exact syncLoop_incomplete _ _ _ t h

theorem synchronize_filter (A B : List Task) (c : List Char)
    (hc : (dictGet (byContent A) c).isSome = true ∨
      (dictGet (byContent B) c).isSome = true) :
    (synchronize A B).1.filter (fun t => t.content = c) =
      (syncOne (byContent A) (byContent B) c).toList := by
  rw [synchronize_eq]
  apply syncLoop_filter _ _ _ _ (contentInv_byContent A)
    (contentInv_byContent B) (nodup_dedupFirst _)
  rw [mem_dedupFirst, List.mem_append]
  cases hc with
  | inl h => exact Or.inl ((dictGet_isSome_iff_mem_keys _ _).mp h)
  | inr h => exact Or.inr ((dictGet_isSome_iff_mem_keys _ _).mp h)

/-! ### Claim theorems for the synchronizer -/

/-- C1: for every pair of task collections and every content present (after
last-wins duplicate collapse) in both, `synchronize` resolves that content
to one merged task with the earlier timestamp and the OR of the completion
flags; if the merged completion is true no task with that content appears
in either result, otherwise the merged task is appended to both results
(and is the unique task with that content there). -/
theorem beorg2journelly_C1 (A B : List Task) (c : List Char) (ta tb : Task)
    (hA : dictGet (byContent A) c = some ta)
    (hB : dictGet (byContent B) c = some tb) :
    ((ta.is_completed || tb.is_completed) = true →
      (synchronize A B).1.filter (fun t => t.content = c) = [] ∧
      (synchronize A B).2.filter (fun t => t.content = c) = []) ∧
    ((ta.is_completed || tb.is_completed) = false →
      (synchronize A B).1.filter (fun t => t.content = c) =
        [⟨c, tsMin ta.timestamp tb.timestamp,
          ta.is_completed || tb.is_completed⟩] ∧
      (synchronize A B).2.filter (fun t => t.content = c) =
        [⟨c, tsMin ta.timestamp tb.timestamp,
          ta.is_completed || tb.is_completed⟩]) := by
  have hfil := synchronize_filter A B c (Or.inl (by simp [hA]))
  have hsnd : (synchronize A B).2 = (synchronize A B).1 :=
    (sync_fst_eq_snd A B).symm
  constructor
  · intro hdone
    have hone : syncOne (byContent A) (byContent B) c = none := by
      simp only [syncOne, hA, hB]
      simp [hdone]
    refine ⟨?_, ?_⟩
    · rw [hfil, hone]
      rfl
    · rw [hsnd, hfil, hone]
      rfl
  · intro hdone
    have hone : syncOne (byContent A) (byContent B) c =
        some ⟨c, tsMin ta.timestamp tb.timestamp,
          ta.is_completed || tb.is_completed⟩ := by
      simp only [syncOne, hA, hB]
      simp [hdone]
    refine ⟨?_, ?_⟩
    · rw [hfil, hone]
      rfl
    · rw [hsnd, hfil, hone]
      rfl

/-- C1 witness: scenario 3 of the spec — the same content in both
collections, incomplete on both sides, with different timestamps; the
merged task keeps the earlier timestamp. -/
theorem beorg2journelly_C1_witness :
    dictGet (byContent [Task.mk ['m'] ⟨2024, 1, 5, 10, 0⟩ false]) ['m'] =
      some (Task.mk ['m'] ⟨2024, 1, 5, 10, 0⟩ false) ∧
    dictGet (byContent [Task.mk ['m'] ⟨2024, 1, 1, 9, 0⟩ false]) ['m'] =
      some (Task.mk ['m'] ⟨2024, 1, 1, 9, 0⟩ false) ∧
    (synchronize [Task.mk ['m'] ⟨2024, 1, 5, 10, 0⟩ false]
        [Task.mk ['m'] ⟨2024, 1, 1, 9, 0⟩ false]).1.filter
        (fun t => t.content = ['m']) =
      [Task.mk ['m'] (tsMin ⟨2024, 1, 5, 10, 0⟩ ⟨2024, 1, 1, 9, 0⟩)
        (false || false)] :=
  ⟨by decide, by decide,
    ((beorg2journelly_C1 [Task.mk ['m'] ⟨2024, 1, 5, 10, 0⟩ false]
        [Task.mk ['m'] ⟨2024, 1, 1, 9, 0⟩ false] ['m']
        (Task.mk ['m'] ⟨2024, 1, 5, 10, 0⟩ false)
        (Task.mk ['m'] ⟨2024, 1, 1, 9, 0⟩ false)
        (by decide) (by decide)).2 (by decide)).1⟩

/-- C2: for every content present (after duplicate collapse) in exactly one
of the two collections, `synchronize` drops it from both results when the
source task is completed, and otherwise appends the unchanged source task
to both results. -/
theorem beorg2journelly_C2 (A B : List Task) (c : List Char) (t : Task)
    (h : (dictGet (byContent A) c = some t ∧ dictGet (byContent B) c = none) ∨
         (dictGet (byContent A) c = none ∧ dictGet (byContent B) c = some t)) :
    (t.is_completed = true →
      (synchronize A B).1.filter (fun u => u.content = c) = [] ∧
      (synchronize A B).2.filter (fun u => u.content = c) = []) ∧
    (t.is_completed = false →
      (synchronize A B).1.filter (fun u => u.content = c) = [t] ∧
      (synchronize A B).2.filter (fun u => u.content = c) = [t]) := by
  have hsnd : (synchronize A B).2 = (synchronize A B).1 :=
    (sync_fst_eq_snd A B).symm
  cases h with
  | inl h =>
    have hfil := synchronize_filter A B c (Or.inl (by simp [h.1]))
    constructor
    · intro hdone
      have hone : syncOne (byContent A) (byContent B) c = none := by
        simp only [syncOne, h.1, h.2]
        simp [hdone]
      refine ⟨?_, ?_⟩
      · rw [hfil, hone]
        rfl
      · rw [hsnd, hfil, hone]
        rfl
    · intro hdone
      have hone : syncOne (byContent A) (byContent B) c = some t := by
        simp only [syncOne, h.1, h.2]
        simp [hdone]
      refine ⟨?_, ?_⟩
      · rw [hfil, hone]
        rfl
      · rw [hsnd, hfil, hone]
        rfl
  | inr h =>
    have hfil := synchronize_filter A B c (Or.inr (by simp [h.2]))
    constructor
    · intro hdone
      have hone : syncOne (byContent A) (byContent B) c = none := by
        simp only [syncOne, h.1, h.2]
        simp [hdone]
      refine ⟨?_, ?_⟩
      · rw [hfil, hone]
        rfl
      · rw [hsnd, hfil, hone]
        rfl
    · intro hdone
      have hone : syncOne (byContent A) (byContent B) c = some t := by
        simp only [syncOne, h.1, h.2]
        simp [hdone]
      refine ⟨?_, ?_⟩
      · rw [hfil, hone]
        rfl
      · rw [hsnd, hfil, hone]
        rfl

/-- C2 witness: scenario 1 of the spec — a new incomplete task present only
on one side is propagated unchanged to both result collections. -/
theorem beorg2journelly_C2_witness :
    ((dictGet (byContent [Task.mk ['b'] ⟨2024, 2, 1, 8, 0⟩ false]) ['b'] =
        some (Task.mk ['b'] ⟨2024, 2, 1, 8, 0⟩ false) ∧
      dictGet (byContent ([] : List Task)) ['b'] = none) ∨
     (dictGet (byContent [Task.mk ['b'] ⟨2024, 2, 1, 8, 0⟩ false]) ['b'] =
        none ∧
      dictGet (byContent ([] : List Task)) ['b'] =
        some (Task.mk ['b'] ⟨2024, 2, 1, 8, 0⟩ false))) ∧
    (synchronize [Task.mk ['b'] ⟨2024, 2, 1, 8, 0⟩ false] []).1.filter
        (fun u => u.content = ['b']) =
      [Task.mk ['b'] ⟨2024, 2, 1, 8, 0⟩ false] ∧
    (synchronize [Task.mk ['b'] ⟨2024, 2, 1, 8, 0⟩ false] []).2.filter
        (fun u => u.content = ['b']) =
      [Task.mk ['b'] ⟨2024, 2, 1, 8, 0⟩ false] :=
  ⟨by decide,
    (beorg2journelly_C2 [Task.mk ['b'] ⟨2024, 2, 1, 8, 0⟩ false] [] ['b']
      (Task.mk ['b'] ⟨2024, 2, 1, 8, 0⟩ false) (by decide)).2 (by decide)⟩

/-- C4: the content→Task mapping step collapses same-content tasks to a
single entry before reconciliation, the survivor being the task appearing
latest in parse order (last one read wins). -/
theorem beorg2journelly_C4 (tasks : List Task) (c : List Char) :
    dictGet (byContent tasks) c =
      (tasks.filter (fun t => t.content = c)).getLast? ∧
    (dictKeys (byContent tasks)).Nodup :=
  ⟨dictGet_byContent tasks c, byContent_keys_nodup tasks⟩

/-- C5: synchronization is idempotent — feeding the result pair back in as
the two inputs reproduces exactly the same result pair (no further
removals or additions). -/
theorem beorg2journelly_C5 (A B : List Task) :
    synchronize (synchronize A B).1 (synchronize A B).2 = synchronize A B := by
  have h21 : (synchronize A B).2 = (synchronize A B).1 :=
    (sync_fst_eq_snd A B).symm
  rw [h21, synchronize_self _ (sync_result_contents_nodup A B)
    (fun t ht => sync_result_incomplete A B t ht)]
  exact Prod.ext rfl (sync_fst_eq_snd A B)

/-- C10: the two result collections returned by `synchronize` are
element-wise identical lists — every appended task goes to both results in
the same position. -/
theorem beorg2journelly_C10 (A B : List Task) :
    (synchronize A B).1 = (synchronize A B).2 :=
  sync_fst_eq_snd A B

/-! ### Regular-expression and strptime evaluation lemmas -/

theorem takeDigits_exact {n : Nat} {l rest : List Char} (hlen : l.length = n)
    (hdig : l.all Char.isDigit = true) :
    takeDigits n (l ++ rest) = some (l, rest) := by
  unfold takeDigits
  rw [List.take_left' hlen, List.drop_left' hlen]
  simp [hlen, hdig]

theorem expectChar_cons (c : Char) (rest : List Char) :
    expectChar c (c :: rest) = some rest := by
  simp [expectChar]

theorem takeWord3_eval {a b c : Char} (rest : List Char)
    (ha : isWordChar a = true) (hb : isWordChar b = true)
    (hc : isWordChar c = true) :
    takeWord3 (a :: b :: c :: rest) = some ([a, b, c], rest) := by
  simp [takeWord3, ha, hb, hc]

theorem takeDigits12_two {x y : Char} (rest : List Char)
    (hx : x.isDigit = true) (hy : y.isDigit = true) :
    takeDigits12 (x :: y :: rest) = some ([x, y], rest) := by
  simp [takeDigits12, hx, hy]

theorem matchTsCore_shape {d4 mo dd w hh mi : List Char}
    (rest : List Char) (hshape : tsShape d4 mo dd hh mi)
    (hw3 : w.length = 3) (hww : w.all isWordChar = true) :
    matchTsCore (tsCoreText d4 mo dd w hh mi ++ rest) =
      some (tsCoreText d4 mo dd w hh mi, rest) := by
  obtain ⟨⟨h4l, h4d⟩, ⟨hml, hmd⟩, ⟨hdl, hdd⟩, ⟨hhl, hhd⟩, ⟨hil, hid⟩⟩ := hshape
  obtain ⟨a, b, c, rfl⟩ := List.length_eq_three.mp hw3
  obtain ⟨ha, hb, hc⟩ : isWordChar a = true ∧ isWordChar b = true ∧
      isWordChar c = true := by simpa using hww
  simp only [matchTsCore, tsCoreText, List.append_assoc, List.cons_append,
    List.nil_append]
  rw [takeDigits_exact h4l h4d]
  simp only [Option.bind_eq_bind, Option.some_bind, expectChar_cons]
  rw [takeDigits_exact hml hmd]
  simp only [Option.bind_eq_bind, Option.some_bind, expectChar_cons]
  rw [takeDigits_exact hdl hdd]
  simp only [Option.bind_eq_bind, Option.some_bind, expectChar_cons]
  rw [show a :: b :: c :: (' ' :: (hh ++ (':' :: (mi ++ rest)))) =
    [a, b, c] ++ (' ' :: (hh ++ (':' :: (mi ++ rest)))) from rfl,
    show ([a, b, c] : List Char) ++ (' ' :: (hh ++ (':' :: (mi ++ rest)))) =
    a :: b :: c :: (' ' :: (hh ++ (':' :: (mi ++ rest)))) from rfl,
    takeWord3_eval _ ha hb hc]
  simp only [Option.bind_eq_bind, Option.some_bind, expectChar_cons]
  rw [takeDigits_exact hhl hhd]
  simp only [Option.bind_eq_bind, Option.some_bind, expectChar_cons]
  rw [takeDigits_exact hil hid]
  simp

theorem dowNames_word : ∀ w ∈ dowNames, w.length = 3 ∧
    w.all isWordChar = true := by decide

theorem dowNames_lower : ∀ w ∈ dowNames,
    (w.map Char.toLower) ∈ dowAbbrevsLower := by decide

theorem strptimeTs_shape {d4 mo dd w hh mi : List Char}
    (hshape : tsShape d4 mo dd hh mi) (hw3 : w.length = 3)
    (hlow : (w.map Char.toLower) ∈ dowAbbrevsLower) :
    strptimeTs (tsCoreText d4 mo dd w hh mi) =
      mkDatetime (digitsToNat d4) (digitsToNat mo) (digitsToNat dd)
        (digitsToNat hh) (digitsToNat mi) := by
  obtain ⟨⟨h4l, h4d⟩, ⟨hml, hmd⟩, ⟨hdl, hdd⟩, ⟨hhl, hhd⟩, ⟨hil, hid⟩⟩ := hshape
  obtain ⟨ma, mb, rfl⟩ := List.length_eq_two.mp hml
  obtain ⟨da, db, rfl⟩ := List.length_eq_two.mp hdl
  obtain ⟨hA, hB, rfl⟩ := List.length_eq_two.mp hhl
  obtain ⟨ia, ib, rfl⟩ := List.length_eq_two.mp hil
  obtain ⟨a, b, c, rfl⟩ := List.length_eq_three.mp hw3
  obtain ⟨hma, hmb⟩ : ma.isDigit = true ∧ mb.isDigit = true := by simpa using hmd
  obtain ⟨hda, hdb⟩ : da.isDigit = true ∧ db.isDigit = true := by simpa using hdd
  obtain ⟨hha, hhb⟩ : hA.isDigit = true ∧ hB.isDigit = true := by simpa using hhd
  obtain ⟨hia, hib⟩ : ia.isDigit = true ∧ ib.isDigit = true := by simpa using hid
  simp only [strptimeTs, tsCoreText, List.append_assoc, List.cons_append,
    List.nil_append]
  rw [takeDigits_exact h4l h4d]
  simp only [Option.bind_eq_bind, Option.some_bind, expectChar_cons]
  rw [takeDigits12_two _ hma hmb]
  simp only [Option.bind_eq_bind, Option.some_bind, expectChar_cons]
  rw [takeDigits12_two _ hda hdb]
  simp only [Option.bind_eq_bind, Option.some_bind, expectChar_cons, hlow, if_pos]
  rw [takeDigits12_two _ hha hhb]
  simp only [Option.bind_eq_bind, Option.some_bind, expectChar_cons]
  rw [takeDigits12_two _ hia hib]
  simp [hlow]

/-! ### Digit formatting lemmas -/

theorem digitChar_toNat (n : Nat) : (digitChar n).toNat = 48 + n % 10 := by
  have h : n % 10 < 10 := Nat.mod_lt _ (by norm_num)
  unfold digitChar
  generalize hk : n % 10 = k at h ⊢
  interval_cases k <;> decide

theorem digitChar_isDigit (n : Nat) : (digitChar n).isDigit = true := by
  have h : n % 10 < 10 := Nat.mod_lt _ (by norm_num)
  unfold digitChar
  generalize hk : n % 10 = k at h ⊢
  interval_cases k <;> decide

theorem nat2_block (n : Nat) : digitBlock 2 (nat2 n) := by
  refine ⟨by simp [nat2], ?_⟩
  simp [nat2, digitChar_isDigit]

theorem nat4_block (n : Nat) : digitBlock 4 (nat4 n) := by
  refine ⟨by simp [nat4], ?_⟩
  simp [nat4, digitChar_isDigit]

theorem digitsToNat_nat2 (n : Nat) (h : n < 100) : digitsToNat (nat2 n) = n := by
  simp [digitsToNat, nat2, digitChar_toNat]
  omega

theorem digitsToNat_nat4 (n : Nat) (h : n < 10000) :
    digitsToNat (nat4 n) = n := by
  simp [digitsToNat, nat4, digitChar_toNat]
  omega

theorem daysInMonth_le (y m : Nat) : daysInMonth y m ≤ 31 := by
  unfold daysInMonth
  split
  · split <;> norm_num
  · split <;> norm_num

theorem dowIndex_lt (y m d : Nat) : dowIndex y m d < 7 := by
  unfold dowIndex
  exact Nat.mod_lt _ (by norm_num)

theorem dowAbbrev_mem (y m d : Nat) : dowAbbrev y m d ∈ dowNames := by
  have h : dowIndex y m d < dowNames.length := by
    have := dowIndex_lt y m d
    simpa [dowNames] using this
  unfold dowAbbrev
  rw [List.getD_eq_getElem?_getD, List.getElem?_eq_getElem h]
  simp only [Option.getD_some]
  exact List.getElem_mem h

theorem formatTs_eq (t : Timestamp) :
    formatTs t = tsCoreText (nat4 t.year) (nat2 t.month) (nat2 t.day)
      (dowAbbrev t.year t.month t.day) (nat2 t.hour) (nat2 t.minute) := rfl

theorem validTs_fields {t : Timestamp} (h : validTs t = true) :
    1000 ≤ t.year ∧ t.year ≤ 9999 ∧ 1 ≤ t.month ∧ t.month ≤ 12 ∧
    1 ≤ t.day ∧ t.day ≤ daysInMonth t.year t.month ∧ t.hour ≤ 23 ∧
    t.minute ≤ 59 := by
  simpa [validTs, Bool.and_eq_true, decide_eq_true_eq, and_assoc] using h

theorem strptimeTs_formatTs {t : Timestamp} (h : validTs t = true) :
    strptimeTs (formatTs t) = some t := by
  obtain ⟨hy1, hy2, hm1, hm2, hd1, hd2, hh2, hmi2⟩ := validTs_fields h
  rw [formatTs_eq, strptimeTs_shape
    ⟨nat4_block _, nat2_block _, nat2_block _, nat2_block _, nat2_block _⟩
    (dowNames_word _ (dowAbbrev_mem t.year t.month t.day)).1
    (dowNames_lower _ (dowAbbrev_mem t.year t.month t.day)),
    digitsToNat_nat4 _ (by omega),
    digitsToNat_nat2 _ (by omega),
    digitsToNat_nat2 _ (by have := daysInMonth_le t.year t.month; omega),
    digitsToNat_nat2 _ (by omega),
    digitsToNat_nat2 _ (by omega)]
  unfold mkDatetime
  rw [if_pos]
  simp only [Bool.and_eq_true, decide_eq_true_eq]
  exact ⟨⟨⟨⟨⟨⟨⟨by omega, by omega⟩, hm1⟩, hm2⟩, hd1⟩, hd2⟩, hh2⟩, hmi2⟩

/-! ### Claim C7: line advance after an invalid BeOrg timestamp -/

theorem beorgTsMatch_not_header {s g : List Char}
    (h : beorgTsMatch s = some g) :
    (startsWith ("* TODO ".toList) s ||
      startsWith ("* DONE ".toList) s) = false := by
  unfold beorgTsMatch at h
  split at h
  · rfl
  · exact absurd h (by simp)

theorem beorgParseLines_skip {l2 : List Char} (rest : List (List Char))
    (hnh : (startsWith ("* TODO ".toList) (pyStrip l2) ||
      startsWith ("* DONE ".toList) (pyStrip l2)) = false) :
    beorgParseLines (l2 :: rest) = beorgParseLines rest := by
  obtain ⟨h1, h2⟩ :
      startsWith ['*', ' ', 'T', 'O', 'D', 'O', ' '] (pyStrip l2) = false ∧
      startsWith ['*', ' ', 'D', 'O', 'N', 'E', ' '] (pyStrip l2) = false := by
    simpa using hnh
  cases rest with
  | nil => simp [beorgParseLines, beorgParseTaskFromLine, h1, h2]
  | cons r rs => simp [beorgParseLines, beorgParseTaskFromLine, h1, h2]

/-- C7 counterexample: a recognized header whose next line matches the
bracketed timestamp shape but fails `strptime` (month 13).  The step
function reports **zero** extra lines consumed — not the one extra line
the claim asserts — so scanning resumes at the timestamp line itself. -/
theorem beorg2journelly_C7_counterexample :
    beorgParseTaskFromLine ("* TODO x".toList)
        (some ("[2024-13-01 Mon 10:00]".toList)) =
      (none, 0, [beorgInvalidTsWarning ("2024-13-01 Mon 10:00".toList)]) ∧
    (beorgParseTaskFromLine ("* TODO x".toList)
        (some ("[2024-13-01 Mon 10:00]".toList))).2.1 ≠ 1 := by
  constructor
  · decide
  · decide

/-- C7 (amended): when a recognized header is followed by a line matching
the bracketed timestamp shape whose text fails to parse as a valid
date/time, the entry is discarded with exactly one warning, but only the
header line is counted as consumed (`lines_consumed = 0`), so scanning
resumes **at** the timestamp line; since a timestamp-shaped line can never
match a header marker, the parse output is nevertheless the same as if
scanning had resumed immediately after the timestamp line. -/
theorem beorg2journelly_C7 (l l2 : List Char) (rest : List (List Char))
    (g : List Char)
    (hheader : (startsWith ("* TODO ".toList) (pyStrip l) ||
      startsWith ("* DONE ".toList) (pyStrip l)) = true)
    (hmatch : beorgTsMatch (pyStrip l2) = some g)
    (hbad : strptimeTs g = none) :
    beorgParseTaskFromLine (pyStrip l) (some l2) =
      (none, 0, [beorgInvalidTsWarning g]) ∧
    beorgParseLines (l :: l2 :: rest) =
      ((beorgParseLines rest).1,
        beorgInvalidTsWarning g :: (beorgParseLines rest).2) := by
  have hstep : beorgParseTaskFromLine (pyStrip l) (some l2) =
      (none, 0, [beorgInvalidTsWarning g]) := by
    unfold beorgParseTaskFromLine
    rw [if_pos hheader]
    simp only [hmatch, hbad]
  refine ⟨hstep, ?_⟩
  have hskip := beorgParseLines_skip rest (beorgTsMatch_not_header hmatch)
  simp [beorgParseLines, hstep, hskip]

/-- C7 witness: the amended statement instantiated at the month-13 input. -/
theorem beorg2journelly_C7_witness :
    (startsWith ("* TODO ".toList) (pyStrip ("* TODO x".toList)) ||
      startsWith ("* DONE ".toList) (pyStrip ("* TODO x".toList))) = true ∧
    beorgTsMatch (pyStrip ("[2024-13-01 Mon 10:00]".toList)) =
      some ("2024-13-01 Mon 10:00".toList) ∧
    strptimeTs ("2024-13-01 Mon 10:00".toList) = none ∧
    beorgParseLines [("* TODO x".toList), ("[2024-13-01 Mon 10:00]".toList)] =
      ((beorgParseLines []).1,
        beorgInvalidTsWarning ("2024-13-01 Mon 10:00".toList) ::
          (beorgParseLines []).2) :=
  ⟨by decide, by decide, by decide,
    (beorg2journelly_C7 ("* TODO x".toList) ("[2024-13-01 Mon 10:00]".toList)
      [] ("2024-13-01 Mon 10:00".toList) (by decide) (by decide)
      (by decide)).2⟩

/-! ### Claim C8: trailing characters after the Journelly header suffix -/

/-- C8 counterexample: a Journelly header line with extra trailing
characters after the fixed `@ -` suffix is still recognized — the regular
expression is only anchored at the start of the line — so a task **is**
parsed starting at that line, contradicting the claim. -/
theorem beorg2journelly_C8_counterexample :
    (journellyParseTasks
        ("* [2024-01-01 Mon 10:00] @ - extra\n- [ ] x".toList)).1 =
      [⟨['x'], ⟨2024, 1, 1, 10, 0⟩, false⟩] := by
  decide

/-- C8 (amended): the Journelly parser recognizes a task header at every
line whose **start** matches `* [YYYY-MM-DD Dow HH:MM] @ -`; characters
after the `@ -` suffix are permitted and ignored (the pattern is anchored
only at the start of the line). -/
theorem beorg2journelly_C8 (d4 mo dd w hh mi tail : List Char)
    (hshape : tsShape d4 mo dd hh mi) (hw3 : w.length = 3)
    (hww : w.all isWordChar = true) :
    journellyHeaderMatch ('*' :: (' ' :: ('[' ::
        (tsCoreText d4 mo dd w hh mi ++
          (']' :: (' ' :: ('@' :: (' ' :: ('-' :: tail))))))))) =
      some (tsCoreText d4 mo dd w hh mi) := by
  have h := matchTsCore_shape
    (']' :: (' ' :: ('@' :: (' ' :: ('-' :: tail))))) hshape hw3 hww
  simp [journellyHeaderMatch, h]

/-- C8 witness: the amended statement at a concrete header with trailing
characters. -/
theorem beorg2journelly_C8_witness :
    tsShape ("2024".toList) ("01".toList) ("01".toList) ("10".toList)
      ("00".toList) ∧
    ("Mon".toList).length = 3 ∧ ("Mon".toList).all isWordChar = true ∧
    journellyHeaderMatch ('*' :: (' ' :: ('[' ::
        (tsCoreText ("2024".toList) ("01".toList) ("01".toList)
            ("Mon".toList) ("10".toList) ("00".toList) ++
          (']' :: (' ' :: ('@' :: (' ' :: ('-' :: " extra".toList))))))))) =
      some (tsCoreText ("2024".toList) ("01".toList) ("01".toList)
        ("Mon".toList) ("10".toList) ("00".toList)) :=
  ⟨⟨⟨by decide, by decide⟩, ⟨by decide, by decide⟩, ⟨by decide, by decide⟩,
      ⟨by decide, by decide⟩, ⟨by decide, by decide⟩⟩, by decide, by decide,
    beorg2journelly_C8 ("2024".toList) ("01".toList) ("01".toList)
      ("Mon".toList) ("10".toList) ("00".toList) (" extra".toList)
      ⟨⟨by decide, by decide⟩, ⟨by decide, by decide⟩, ⟨by decide, by decide⟩,
        ⟨by decide, by decide⟩, ⟨by decide, by decide⟩⟩
      (by decide) (by decide)⟩

/-! ### Claim C6: malformed entries warn and are skipped -/

/-- C6: malformed entries never abort parsing, in either parser: a
recognized header whose companion line is missing (end of file), fails
the required shape, or carries an unparseable timestamp is excluded from
the task list, contributes exactly one warning, and scanning continues.
The conjuncts cover, in order: the concrete inbox single-header-at-EOF
scenario (zero tasks, one warning); the BeOrg header at end of file; the
BeOrg companion failing the timestamp shape; the BeOrg unparseable
timestamp; the Journelly companion failing the checkbox shape; the
Journelly companion missing at end of file; and the Journelly unparseable
timestamp.  (Parsing in the embedding is total by construction, so no
error can be raised.) -/
theorem beorg2journelly_C6 :
    (beorgParseTasks ("* TODO Buy milk".toList) =
      ([], [beorgEofWarning ("* TODO Buy milk".toList)])) ∧
    (∀ l : List Char,
      (startsWith ("* TODO ".toList) (pyStrip l) ||
        startsWith ("* DONE ".toList) (pyStrip l)) = true →
      beorgParseLines [l] = ([], [beorgEofWarning (pyStrip l)])) ∧
    (∀ (l l2 : List Char) (rest : List (List Char)),
      (startsWith ("* TODO ".toList) (pyStrip l) ||
        startsWith ("* DONE ".toList) (pyStrip l)) = true →
      beorgTsMatch (pyStrip l2) = none →
      beorgParseLines (l :: l2 :: rest) =
        ((beorgParseLines (l2 :: rest)).1,
          beorgMalformedWarning (pyStrip l) ::
            (beorgParseLines (l2 :: rest)).2)) ∧
    (∀ (l l2 : List Char) (rest : List (List Char)) (g : List Char),
      (startsWith ("* TODO ".toList) (pyStrip l) ||
        startsWith ("* DONE ".toList) (pyStrip l)) = true →
      beorgTsMatch (pyStrip l2) = some g →
      strptimeTs g = none →
      beorgParseLines (l :: l2 :: rest) =
        ((beorgParseLines (l2 :: rest)).1,
          beorgInvalidTsWarning g :: (beorgParseLines (l2 :: rest)).2)) ∧
    (∀ (l l2 : List Char) (rest : List (List Char)) (g : List Char)
        (ts : Timestamp),
      journellyHeaderMatch (pyStrip l) = some g →
      strptimeTs g = some ts →
      (startsWith ("- [ ] ".toList) (pyStrip l2) ||
        startsWith ("- [X] ".toList) (pyStrip l2)) = false →
      journellyParseLines (l :: l2 :: rest) =
        ((journellyParseLines (l2 :: rest)).1,
          journellyMalformedWarning (pyStrip l) ::
            (journellyParseLines (l2 :: rest)).2)) ∧
    (∀ (l : List Char) (g : List Char) (ts : Timestamp),
      journellyHeaderMatch (pyStrip l) = some g →
      strptimeTs g = some ts →
      journellyParseLines [l] = ([], [journellyEofWarning (pyStrip l)])) ∧
    (∀ (l : List Char) (rest : List (List Char)) (g : List Char),
      journellyHeaderMatch (pyStrip l) = some g →
      strptimeTs g = none →
      journellyParseLines (l :: rest) =
        ((journellyParseLines rest).1,
          journellyInvalidTsWarning g :: (journellyParseLines rest).2)) := by
  refine ⟨by decide, ?_, ?_, ?_, ?_, ?_, ?_⟩
  · intro l hheader
    have hstep : beorgParseTaskFromLine (pyStrip l) none =
        (none, 0, [beorgEofWarning (pyStrip l)]) := by
      unfold beorgParseTaskFromLine
      rw [if_pos hheader]
    simp [beorgParseLines, hstep]
  · intro l l2 rest hheader hmatch
    have hstep : beorgParseTaskFromLine (pyStrip l) (some l2) =
        (none, 0, [beorgMalformedWarning (pyStrip l)]) := by
      unfold beorgParseTaskFromLine
      rw [if_pos hheader]
      simp only [hmatch]
    simp [beorgParseLines, hstep]
  · intro l l2 rest g hheader hmatch hbad
    have hstep : beorgParseTaskFromLine (pyStrip l) (some l2) =
        (none, 0, [beorgInvalidTsWarning g]) := by
      unfold beorgParseTaskFromLine
      rw [if_pos hheader]
      simp only [hmatch, hbad]
    simp [beorgParseLines, hstep]
  · intro l l2 rest g ts hmatch hts hcomp
    have hstep : journellyParseTaskFromLine (pyStrip l) (some l2) =
        (none, 0, [journellyMalformedWarning (pyStrip l)]) := by
      have hnc : ¬ ((startsWith ("- [ ] ".toList) (pyStrip l2) ||
          startsWith ("- [X] ".toList) (pyStrip l2)) = true) := by
        simp only [hcomp]
        exact Bool.false_ne_true
      unfold journellyParseTaskFromLine
      simp only [hmatch, hts]
      rw [if_neg hnc]
    simp [journellyParseLines, hstep]
  · intro l g ts hmatch hts
    have hstep : journellyParseTaskFromLine (pyStrip l) none =
        (none, 0, [journellyEofWarning (pyStrip l)]) := by
      unfold journellyParseTaskFromLine
      simp only [hmatch, hts]
    simp [journellyParseLines, hstep]
  · intro l rest g hmatch hbad
    have hstep : ∀ next?, journellyParseTaskFromLine (pyStrip l) next? =
        (none, 0, [journellyInvalidTsWarning g]) := by
      intro next?
      unfold journellyParseTaskFromLine
      simp only [hmatch, hbad]
    cases rest with
    | nil => simp [journellyParseLines, hstep none]
    | cons r rs => simp [journellyParseLines, hstep (some r)]

/-- C6 witness: the quantified malformed-shape case instantiated at a
header followed by a non-timestamp line. -/
theorem beorg2journelly_C6_witness :
    (startsWith ("* TODO ".toList) (pyStrip ("* TODO a".toList)) ||
      startsWith ("* DONE ".toList) (pyStrip ("* TODO a".toList))) = true ∧
    beorgTsMatch (pyStrip ("free text".toList)) = none ∧
    beorgParseLines [("* TODO a".toList), ("free text".toList)] =
      ((beorgParseLines [("free text".toList)]).1,
        beorgMalformedWarning (pyStrip ("* TODO a".toList)) ::
          (beorgParseLines [("free text".toList)]).2) :=
  ⟨by decide, by decide,
    beorg2journelly_C6.2.2.1 ("* TODO a".toList) ("free text".toList) []
      (by decide) (by decide)⟩

/-! ### Round-trip: text-level lemmas -/

theorem joinLines_eq (lines : List (List Char)) (h : lines ≠ []) :
    joinLines lines = interNL lines ++ ['\n'] := by
  induction lines with
  | nil => exact absurd rfl h
  | cons l ls ih =>
    cases ls with
    | nil => simp [joinLines, interNL]
    | cons l2 ls' =>
      have hjoin : joinLines (l :: l2 :: ls') =
          (l ++ ['\n']) ++ joinLines (l2 :: ls') := by
        simp [joinLines]
      rw [hjoin, ih (by simp), interNL]
      simp

theorem pyStrip_eq_self (l : List Char)
    (hh : ∀ c, l.head? = some c → pyIsSpace c = false)
    (hl : ∀ c, l.getLast? = some c → pyIsSpace c = false) :
    pyStrip l = l := by
  unfold pyStrip
  have h1 : l.dropWhile pyIsSpace = l := by
    cases l with
    | nil => rfl
    | cons a as =>
      exact List.dropWhile_cons_of_neg (by simp [hh a rfl])
  rw [h1]
  have h2 : l.reverse.dropWhile pyIsSpace = l.reverse := by
    cases hr : l.reverse with
    | nil => rfl
    | cons a as =>
      have ha : l.getLast? = some a := by
        rw [← List.head?_reverse, hr]
        rfl
      exact List.dropWhile_cons_of_neg (by simp [hl a ha])
  rw [h2, List.reverse_reverse]

theorem pyStrip_append_newline (l : List Char)
    (hh : ∀ c, l.head? = some c → pyIsSpace c = false)
    (hl : ∀ c, l.getLast? = some c → pyIsSpace c = false) :
    pyStrip (l ++ ['\n']) = l := by
  cases hcase : l with
  | nil => decide
  | cons a0 as0 =>
  rw [← hcase]
  have hlne : l ≠ [] := by simp [hcase]
  unfold pyStrip
  have h1 : (l ++ ['\n']).dropWhile pyIsSpace = l ++ ['\n'] := by
    cases l with
    | nil => simp at hlne
    | cons a as =>
      exact List.dropWhile_cons_of_neg (by simp [hh a rfl])
  rw [h1]
  have h2 : (l ++ ['\n']).reverse = '\n' :: l.reverse := by simp
  rw [h2, List.dropWhile_cons_of_pos (by decide)]
  have h3 : l.reverse.dropWhile pyIsSpace = l.reverse := by
    cases hr : l.reverse with
    | nil => rfl
    | cons a as =>
      have ha : l.getLast? = some a := by
        rw [← List.head?_reverse, hr]
        rfl
      exact List.dropWhile_cons_of_neg (by simp [hl a ha])
  rw [h3, List.reverse_reverse]

theorem splitLines_no_newline (l : List Char)
    (h : ∀ c ∈ l, c ≠ '\n') : splitLines l = [l] := by
  induction l with
  | nil => rfl
  | cons c cs ih =>
    have hc : ¬ (c = '\n') := h c (by simp)
    rw [splitLines, if_neg hc, ih (fun x hx => h x (by simp [hx]))]

theorem splitLines_append_newline (l : List Char) (rest : List Char)
    (h : ∀ c ∈ l, c ≠ '\n') :
    splitLines (l ++ ('\n' :: rest)) = l :: splitLines rest := by
  induction l with
  | nil =>
    rw [List.nil_append, splitLines, if_pos rfl]
  | cons c cs ih =>
    have hc : ¬ (c = '\n') := h c (by simp)
    rw [List.cons_append, splitLines, if_neg hc,
      ih (fun x hx => h x (by simp [hx]))]

theorem splitLines_interNL (lines : List (List Char))
    (hnl : ∀ l ∈ lines, ∀ c ∈ l, c ≠ '\n') (hne : lines ≠ []) :
    splitLines (interNL lines) = lines := by
  induction lines with
  | nil => exact absurd rfl hne
  | cons l ls ih =>
    cases ls with
    | nil => exact splitLines_no_newline l (hnl l (by simp))
    | cons l2 ls' =>
      rw [interNL, splitLines_append_newline l _ (hnl l (by simp)),
        ih (fun u hu => hnl u (by simp [hu])) (by simp)]

theorem splitLines_pyStrip_joinLines (lines : List (List Char))
    (hne : lines ≠ [])
    (hnl : ∀ l ∈ lines, ∀ c ∈ l, c ≠ '\n')
    (hh : ∀ c, (interNL lines).head? = some c → pyIsSpace c = false)
    (hl : ∀ c, (interNL lines).getLast? = some c → pyIsSpace c = false) :
    splitLines (pyStrip (joinLines lines)) = lines := by
  rw [joinLines_eq lines hne, pyStrip_append_newline _ hh hl,
    splitLines_interNL lines hnl hne]

/-! ### Round-trip: facts about formatted lines -/

theorem getLast?_append_left {α : Type} (l l' : List α) (h : l' ≠ []) :
    (l ++ l').getLast? = l'.getLast? := by
  rw [List.getLast?_append]
  cases hg : l'.getLast? with
  | none => exact absurd (List.getLast?_eq_none_iff.mp hg) h
  | some x => rfl

theorem contentSafe_fields {c : List Char} (h : contentSafe c = true) :
    c ≠ [] ∧ (∀ ch ∈ c, ch ≠ '\n') ∧
      (∀ ch, c.getLast? = some ch → pyIsSpace ch = false) := by
  obtain ⟨hne, hnl, hlast⟩ : (!c.isEmpty) = true ∧
      (c.all (fun ch => ch ≠ '\n')) = true ∧
      (!(pyIsSpace (c.getLastD ' '))) = true := by
    simpa [contentSafe, Bool.and_eq_true, and_assoc] using h
  refine ⟨by simpa using hne, ?_, ?_⟩
  · intro ch hch
    have := List.all_eq_true.mp hnl ch hch
    simpa using this
  · intro ch hch
    have hgd : c.getLastD ' ' = ch := by
      rw [List.getLastD_eq_getLast?, hch]
      rfl
    rw [← hgd]
    simpa using hlast

theorem startsWith_self_append (p s : List Char) :
    startsWith p (p ++ s) = true := by
  induction p with
  | nil => rfl
  | cons c cs ih => simp [startsWith, ih]

theorem digit_not_newline {c : Char} (h : c.isDigit = true) : c ≠ '\n' :=
  fun heq => absurd h (by rw [heq]; decide)

theorem dowNames_no_newline : ∀ w ∈ dowNames, ∀ c ∈ w, ¬ (c = '\n') := by
  decide

theorem digitBlock_no_newline {n : Nat} {l : List Char} (h : digitBlock n l) :
    ∀ c ∈ l, c ≠ '\n' := by
  intro c hc
  exact digit_not_newline (List.all_eq_true.mp h.2 c hc)

theorem formatTs_no_newline (t : Timestamp) :
    ∀ c ∈ formatTs t, c ≠ '\n' := by
  rw [formatTs_eq]
  unfold tsCoreText
  intro c hc
  simp only [List.mem_append, List.mem_cons] at hc
  rcases hc with h | h | h | h | h | h | h | h | h | h | h
  · exact digitBlock_no_newline (nat4_block t.year) c h
  · subst h; decide
  · exact digitBlock_no_newline (nat2_block t.month) c h
  · subst h; decide
  · exact digitBlock_no_newline (nat2_block t.day) c h
  · subst h; decide
  · exact dowNames_no_newline _ (dowAbbrev_mem t.year t.month t.day) c h
  · subst h; decide
  · exact digitBlock_no_newline (nat2_block t.hour) c h
  · subst h; decide
  · exact digitBlock_no_newline (nat2_block t.minute) c h

theorem beorgTsMatch_format (ts : Timestamp) :
    beorgTsMatch (('[' :: formatTs ts) ++ [']']) = some (formatTs ts) := by
  have hcore := matchTsCore_shape ([']'] : List Char)
    (⟨nat4_block ts.year, nat2_block ts.month, nat2_block ts.day,
      nat2_block ts.hour, nat2_block ts.minute⟩ :
      tsShape (nat4 ts.year) (nat2 ts.month) (nat2 ts.day) (nat2 ts.hour)
        (nat2 ts.minute))
    (dowNames_word _ (dowAbbrev_mem ts.year ts.month ts.day)).1
    (dowNames_word _ (dowAbbrev_mem ts.year ts.month ts.day)).2
  rw [show (('[' :: formatTs ts) ++ [']']) =
    '[' :: (formatTs ts ++ [']']) from rfl, formatTs_eq]
  simp [beorgTsMatch, hcore, expectChar]

theorem pyStrip_beorg_ts (ts : Timestamp) :
    pyStrip (('[' :: formatTs ts) ++ [']']) = ('[' :: formatTs ts) ++ [']'] := by
  apply pyStrip_eq_self
  · intro c hc
    rw [show ((('[' :: formatTs ts) ++ [']']).head? = some '[') from rfl] at hc
    cases hc
    decide
  · intro c hc
    rw [getLast?_append_left _ _ (by simp)] at hc
    rw [show (([']'] : List Char).getLast? = some ']') from rfl] at hc
    cases hc
    decide

theorem pyStrip_pre_content (pre content : List Char) (hpre : pre ≠ [])
    (hh : ∀ c, pre.head? = some c → pyIsSpace c = false)
    (hcne : content ≠ [])
    (hclast : ∀ ch, content.getLast? = some ch → pyIsSpace ch = false) :
    pyStrip (pre ++ content) = pre ++ content := by
  apply pyStrip_eq_self
  · intro c hc
    cases pre with
    | nil => exact absurd rfl hpre
    | cons p ps =>
      rw [show ((p :: ps ++ content).head? = some p) from rfl] at hc
      cases hc
      exact hh _ rfl
  · intro c hc
    rw [getLast?_append_left _ _ hcne] at hc
    exact hclast c hc

theorem beorgParseLines_format (tasks : List Task)
    (h : ∀ t ∈ tasks, contentSafe t.content = true ∧
      validTs t.timestamp = true) :
    beorgParseLines (beorgFormatTasks tasks) = (tasks, []) := by
  induction tasks with
  | nil => rfl
  | cons t rest ih =>
    have hihyp := ih (fun u hu => h u (by simp [hu]))
    obtain ⟨tc, tts, td⟩ := t
    obtain ⟨hsafe, hts⟩ := h ⟨tc, tts, td⟩ (by simp)
    simp only at hsafe hts
    obtain ⟨hcne, hcnl, hclast⟩ := contentSafe_fields hsafe
    have hstrip_ts := pyStrip_beorg_ts tts
    have hmatch := beorgTsMatch_format tts
    have hsp := strptimeTs_formatTs hts
    cases td
    case false =>
      have hstrip_hdr : pyStrip ("* TODO ".toList ++ tc) =
          "* TODO ".toList ++ tc := by
        apply pyStrip_pre_content _ _ (by simp) _ hcne hclast
        intro c hc
        rw [show (("* TODO ".toList).head? = some '*') from rfl] at hc
        cases hc
        decide
      have hcond : (startsWith ("* TODO ".toList) ("* TODO ".toList ++ tc) ||
          startsWith ("* DONE ".toList) ("* TODO ".toList ++ tc)) = true := by
        rw [startsWith_self_append]
        rfl
      have hstep : beorgParseTaskFromLine
          (pyStrip ("* TODO ".toList ++ tc))
          (some (('[' :: formatTs tts) ++ [']'])) =
          (some ⟨tc, tts, false⟩, 1, []) := by
        rw [hstrip_hdr]
        unfold beorgParseTaskFromLine
        rw [if_pos hcond]
        simp only [hstrip_ts, hmatch, hsp]
        rfl
      show beorgParseLines (("* TODO ".toList ++ tc) ::
          (('[' :: formatTs tts) ++ [']']) :: beorgFormatTasks rest) = _
      rw [beorgParseLines, hstep]
      simp [hihyp]
    case true =>
      have hstrip_hdr : pyStrip ("* DONE ".toList ++ tc) =
          "* DONE ".toList ++ tc := by
        apply pyStrip_pre_content _ _ (by simp) _ hcne hclast
        intro c hc
        rw [show (("* DONE ".toList).head? = some '*') from rfl] at hc
        cases hc
        decide
      have hcond : (startsWith ("* TODO ".toList) ("* DONE ".toList ++ tc) ||
          startsWith ("* DONE ".toList) ("* DONE ".toList ++ tc)) = true := by
        rw [startsWith_self_append]
        simp
      have hstep : beorgParseTaskFromLine
          (pyStrip ("* DONE ".toList ++ tc))
          (some (('[' :: formatTs tts) ++ [']'])) =
          (some ⟨tc, tts, true⟩, 1, []) := by
        rw [hstrip_hdr]
        unfold beorgParseTaskFromLine
        rw [if_pos hcond]
        simp only [hstrip_ts, hmatch, hsp]
        rw [show startsWith ("* DONE ".toList) ("* DONE ".toList ++ tc) = true
          from startsWith_self_append _ _]
        rfl
      show beorgParseLines (("* DONE ".toList ++ tc) ::
          (('[' :: formatTs tts) ++ [']']) :: beorgFormatTasks rest) = _
      rw [beorgParseLines, hstep]
      simp [hihyp]

theorem journellyHeaderMatch_format (ts : Timestamp) :
    journellyHeaderMatch ("* [".toList ++ (formatTs ts ++ "] @ -".toList)) =
      some (formatTs ts) := by
  have hcore := matchTsCore_shape
    (']' :: (' ' :: ('@' :: (' ' :: ('-' :: ([] : List Char))))))
    (⟨nat4_block ts.year, nat2_block ts.month, nat2_block ts.day,
      nat2_block ts.hour, nat2_block ts.minute⟩ :
      tsShape (nat4 ts.year) (nat2 ts.month) (nat2 ts.day) (nat2 ts.hour)
        (nat2 ts.minute))
    (dowNames_word _ (dowAbbrev_mem ts.year ts.month ts.day)).1
    (dowNames_word _ (dowAbbrev_mem ts.year ts.month ts.day)).2
  rw [show ("* [".toList ++ (formatTs ts ++ "] @ -".toList)) =
    '*' :: (' ' :: ('[' :: (formatTs ts ++
      (']' :: (' ' :: ('@' :: (' ' :: ('-' :: ([] : List Char))))))))) from
    rfl, formatTs_eq]
  simp [journellyHeaderMatch, hcore]

theorem pyStrip_journelly_header (ts : Timestamp) :
    pyStrip ("* [".toList ++ (formatTs ts ++ "] @ -".toList)) =
      "* [".toList ++ (formatTs ts ++ "] @ -".toList) := by
  apply pyStrip_eq_self
  · intro c hc
    rw [show (("* [".toList ++ (formatTs ts ++ "] @ -".toList)).head? =
      some '*') from rfl] at hc
    cases hc
    decide
  · intro c hc
    rw [getLast?_append_left _ _ (by simp), getLast?_append_left _ _
      (by simp)] at hc
    rw [show (("] @ -".toList).getLast? = some '-') from rfl] at hc
    cases hc
    decide

theorem journellyParseLines_format (tasks : List Task)
    (h : ∀ t ∈ tasks, contentSafe t.content = true ∧
      validTs t.timestamp = true) :
    journellyParseLines (journellyFormatTasks tasks) = (tasks, []) := by
  induction tasks with
  | nil => rfl
  | cons t rest ih =>
    have hihyp := ih (fun u hu => h u (by simp [hu]))
    obtain ⟨tc, tts, td⟩ := t
    obtain ⟨hsafe, hts⟩ := h ⟨tc, tts, td⟩ (by simp)
    simp only at hsafe hts
    obtain ⟨hcne, hcnl, hclast⟩ := contentSafe_fields hsafe
    have hstrip_hdr := pyStrip_journelly_header tts
    have hmatch := journellyHeaderMatch_format tts
    have hsp := strptimeTs_formatTs hts
    cases td
    case false =>
      have hstrip_c : pyStrip ("- [ ] ".toList ++ tc) =
          "- [ ] ".toList ++ tc := by
        apply pyStrip_pre_content _ _ (by simp) _ hcne hclast
        intro c hc
        rw [show (("- [ ] ".toList).head? = some '-') from rfl] at hc
        cases hc
        decide
      have hcond : (startsWith ("- [ ] ".toList) ("- [ ] ".toList ++ tc) ||
          startsWith ("- [X] ".toList) ("- [ ] ".toList ++ tc)) = true := by
        rw [startsWith_self_append]
        rfl
      have hstep : journellyParseTaskFromLine
          (pyStrip ("* [".toList ++ (formatTs tts ++ "] @ -".toList)))
          (some ("- [ ] ".toList ++ tc)) =
          (some ⟨tc, tts, false⟩, 1, []) := by
        rw [hstrip_hdr]
        unfold journellyParseTaskFromLine
        simp only [hmatch, hsp, hstrip_c]
        rw [if_pos hcond]
        rfl
      show journellyParseLines
          (("* [".toList ++ (formatTs tts ++ "] @ -".toList)) ::
            ("- [ ] ".toList ++ tc) :: journellyFormatTasks rest) = _
      rw [journellyParseLines, hstep]
      simp [hihyp]
    case true =>
      have hstrip_c : pyStrip ("- [X] ".toList ++ tc) =
          "- [X] ".toList ++ tc := by
        apply pyStrip_pre_content _ _ (by simp) _ hcne hclast
        intro c hc
        rw [show (("- [X] ".toList).head? = some '-') from rfl] at hc
        cases hc
        decide
      have hcond : (startsWith ("- [ ] ".toList) ("- [X] ".toList ++ tc) ||
          startsWith ("- [X] ".toList) ("- [X] ".toList ++ tc)) = true := by
        rw [startsWith_self_append]
        simp
      have hstep : journellyParseTaskFromLine
          (pyStrip ("* [".toList ++ (formatTs tts ++ "] @ -".toList)))
          (some ("- [X] ".toList ++ tc)) =
          (some ⟨tc, tts, true⟩, 1, []) := by
        rw [hstrip_hdr]
        unfold journellyParseTaskFromLine
        simp only [hmatch, hsp, hstrip_c]
        rw [if_pos hcond]
        rw [show startsWith ("- [X] ".toList) ("- [X] ".toList ++ tc) = true
          from startsWith_self_append _ _]
        rfl
      show journellyParseLines
          (("* [".toList ++ (formatTs tts ++ "] @ -".toList)) ::
            ("- [X] ".toList ++ tc) :: journellyFormatTasks rest) = _
      rw [journellyParseLines, hstep]
      simp [hihyp]

/-! ### Round-trip: assembling the whole text -/

theorem interNL_ne_nil (l : List Char) (ls : List (List Char)) (h : l ≠ []) :
    interNL (l :: ls) ≠ [] := by
  cases ls with
  | nil => exact h
  | cons l2 rest =>
    rw [interNL]
    cases l with
    | nil => exact absurd rfl h
    | cons a as => simp

theorem interNL_head?_eq (l : List Char) (ls : List (List Char)) (h : l ≠ []) :
    (interNL (l :: ls)).head? = l.head? := by
  cases ls with
  | nil => rfl
  | cons l2 rest =>
    rw [interNL]
    cases l with
    | nil => exact absurd rfl h
    | cons a as => rfl

theorem interNL_getLast?_eq (lines : List (List Char)) (lst : List Char)
    (hall : ∀ u ∈ lines, u ≠ []) (hlast : lines.getLast? = some lst) :
    (interNL lines).getLast? = lst.getLast? := by
  induction lines with
  | nil => simp at hlast
  | cons l ls ih =>
    cases ls with
    | nil =>
      have : l = lst := by simpa using hlast
      subst this
      rfl
    | cons l2 rest =>
      have h2 : (l2 :: rest).getLast? = some lst := by
        rw [← List.getLast?_cons_cons (a := l)]
        exact hlast
      rw [interNL, getLast?_append_left _ _ (by simp)]
      rw [show ('\n' :: interNL (l2 :: rest)) =
        ['\n'] ++ interNL (l2 :: rest) from rfl]
      rw [getLast?_append_left _ _
        (interNL_ne_nil l2 rest (hall l2 (by simp)))]
      exact ih (fun u hu => hall u (by simp [hu])) h2

theorem getLast?_cons_of_ne (a : List Char) (l : List (List Char))
    (h : l ≠ []) : (a :: l).getLast? = l.getLast? := by
  rw [show (a :: l) = [a] ++ l from rfl, getLast?_append_left _ _ h]

/-! ### BeOrg text facts -/

theorem beorgFormatTasks_lines_ne_nil (tasks : List Task) :
    ∀ l ∈ beorgFormatTasks tasks, l ≠ [] := by
  induction tasks with
  | nil => simp [beorgFormatTasks]
  | cons t rest ih =>
    intro l hl
    rw [beorgFormatTasks] at hl
    rcases List.mem_cons.mp hl with h | h
    · subst h; simp
    · rcases List.mem_cons.mp h with h2 | h2
      · subst h2; simp
      · exact ih l h2

theorem beorgFormatTasks_no_newline (tasks : List Task)
    (hs : ∀ t ∈ tasks, contentSafe t.content = true) :
    ∀ l ∈ beorgFormatTasks tasks, ∀ c ∈ l, c ≠ '\n' := by
  induction tasks with
  | nil => simp [beorgFormatTasks]
  | cons t rest ih =>
    obtain ⟨hcne, hcnl, hclast⟩ := contentSafe_fields (hs t (by simp))
    intro l hl
    rw [beorgFormatTasks] at hl
    rcases List.mem_cons.mp hl with h | h
    · subst h
      intro c hc
      simp only [List.mem_cons, List.mem_append] at hc
      rcases hc with h1 | h1 | h1 | h1
      · subst h1; decide
      · subst h1; decide
      · cases hd : t.is_completed <;> rw [hd] at h1 <;> simp at h1 <;>
          rcases h1 with h2 | h2 | h2 | h2 <;> subst h2 <;> decide
      · rcases h1 with h2 | h2
        · subst h2; decide
        · exact hcnl c h2
    · rcases List.mem_cons.mp h with h2 | h2
      · subst h2
        intro c hc
        rcases List.mem_cons.mp hc with h3 | h3
        · subst h3; decide
        · rcases List.mem_append.mp h3 with h4 | h4
          · exact formatTs_no_newline t.timestamp c h4
          · rcases List.mem_singleton.mp h4 with rfl; decide
      · exact ih (fun u hu => hs u (by simp [hu])) l h2

theorem beorgFormatTasks_getLast (t : Task) (rest : List Task) :
    ∃ ts0 : Timestamp, (beorgFormatTasks (t :: rest)).getLast? =
      some (('[' :: formatTs ts0) ++ [']']) := by
  induction rest generalizing t with
  | nil => exact ⟨t.timestamp, by simp [beorgFormatTasks]⟩
  | cons u us ih =>
    obtain ⟨ts0, hts0⟩ := ih u
    refine ⟨ts0, ?_⟩
    rw [beorgFormatTasks, List.getLast?_cons_cons,
      getLast?_cons_of_ne _ _ (by rw [beorgFormatTasks]; simp)]
    rw [beorgFormatTasks] at hts0
    exact hts0

/-! ### Journelly text facts -/

theorem journellyFormatTasks_lines_ne_nil (tasks : List Task) :
    ∀ l ∈ journellyFormatTasks tasks, l ≠ [] := by
  induction tasks with
  | nil => simp [journellyFormatTasks]
  | cons t rest ih =>
    intro l hl
    rw [journellyFormatTasks] at hl
    rcases List.mem_cons.mp hl with h | h
    · subst h; simp
    · rcases List.mem_cons.mp h with h2 | h2
      · subst h2; simp
      · exact ih l h2

theorem journellyFormatTasks_no_newline (tasks : List Task)
    (hs : ∀ t ∈ tasks, contentSafe t.content = true) :
    ∀ l ∈ journellyFormatTasks tasks, ∀ c ∈ l, c ≠ '\n' := by
  induction tasks with
  | nil => simp [journellyFormatTasks]
  | cons t rest ih =>
    obtain ⟨hcne, hcnl, hclast⟩ := contentSafe_fields (hs t (by simp))
    intro l hl
    rw [journellyFormatTasks] at hl
    rcases List.mem_cons.mp hl with h | h
    · subst h
      intro c hc
      rcases List.mem_append.mp hc with h1 | h1
      · fin_cases h1 <;> decide
      · rcases List.mem_append.mp h1 with h2 | h2
        · exact formatTs_no_newline t.timestamp c h2
        · fin_cases h2 <;> decide
    · rcases List.mem_cons.mp h with h2 | h2
      · subst h2
        intro c hc
        rcases List.mem_append.mp hc with h1 | h1
        · fin_cases h1 <;> decide
        · rcases List.mem_append.mp h1 with h3 | h3
          · cases hd : t.is_completed <;> rw [hd] at h3 <;> fin_cases h3 <;>
              decide
          · rcases List.mem_cons.mp h3 with h4 | h4
            · subst h4; decide
            · exact hcnl c h4
      · exact ih (fun u hu => hs u (by simp [hu])) l h2

theorem journellyFormatTasks_getLast (t : Task) (rest : List Task) :
    ∃ tl, tl ∈ (t :: rest) ∧ (journellyFormatTasks (t :: rest)).getLast? =
      some ("- ".toList ++ ((if tl.is_completed then "[X]".toList
        else "[ ]".toList) ++ (' ' :: tl.content))) := by
  induction rest generalizing t with
  | nil => exact ⟨t, by simp, by simp [journellyFormatTasks]⟩
  | cons u us ih =>
    obtain ⟨tl, hm, hl⟩ := ih u
    refine ⟨tl, by simp [List.mem_cons.mp hm], ?_⟩
    rw [journellyFormatTasks, List.getLast?_cons_cons,
      getLast?_cons_of_ne _ _ (by rw [journellyFormatTasks]; simp)]
    rw [journellyFormatTasks] at hl
    exact hl

/-! ### Claim C3: the round trip -/

/-- C3 counterexample: a task whose content carries a trailing space.  The
line-level `strip` removes the space during re-parsing, so
`parse(format(T))` differs from `T` — in both formats — even though the
collection's contents are pairwise distinct. -/
theorem beorg2journelly_C3_counterexample :
    (beorgParseTasks (joinLines (beorgFormatTasks
      [⟨['x', ' '], ⟨2024, 1, 1, 10, 0⟩, false⟩]))).1 ≠
      [⟨['x', ' '], ⟨2024, 1, 1, 10, 0⟩, false⟩] ∧
    (journellyParseTasks (joinLines (journellyFormatTasks
      [⟨['x', ' '], ⟨2024, 1, 1, 10, 0⟩, false⟩]))).1 ≠
      [⟨['x', ' '], ⟨2024, 1, 1, 10, 0⟩, false⟩] := by
  constructor
  · decide
  · decide

/-- C3 (amended): formatting then parsing reproduces exactly the same task
list — in each format independently — for every collection of tasks with
pairwise-distinct contents whose contents are nonempty, contain no newline
and do not end in whitespace, and whose timestamps are calendar-valid with
four-digit years (every content a parser can produce and every timestamp a
`datetime` parsed from four-digit input can hold satisfy these). -/
theorem beorg2journelly_C3 (tasks : List Task)
    (hdist : (tasks.map Task.content).Nodup)
    (hsafe : ∀ t ∈ tasks, contentSafe t.content = true)
    (hvalid : ∀ t ∈ tasks, validTs t.timestamp = true) :
    beorgParseTasks (joinLines (beorgFormatTasks tasks)) = (tasks, []) ∧
    journellyParseTasks (joinLines (journellyFormatTasks tasks)) =
      (tasks, []) := by
  cases tasks with
  | nil => exact ⟨by decide, by decide⟩
  | cons t rest =>
    have hboth : ∀ u ∈ (t :: rest), contentSafe u.content = true ∧
        validTs u.timestamp = true := fun u hu => ⟨hsafe u hu, hvalid u hu⟩
    constructor
    · unfold beorgParseTasks
      rw [splitLines_pyStrip_joinLines (beorgFormatTasks (t :: rest))
        (by rw [beorgFormatTasks]; simp)
        (beorgFormatTasks_no_newline _ hsafe) ?hh ?hl]
      · exact beorgParseLines_format _ hboth
      case hh =>
        intro c hc
        rw [beorgFormatTasks, interNL_head?_eq _ _ (by simp)] at hc
        rw [show (('*' :: (' ' :: ((if t.is_completed then "DONE".toList
          else "TODO".toList) ++ (' ' :: t.content)))).head? = some '*')
          from rfl] at hc
        cases hc
        decide
      case hl =>
        intro c hc
        obtain ⟨ts0, hlast⟩ := beorgFormatTasks_getLast t rest
        rw [interNL_getLast?_eq _ _ (beorgFormatTasks_lines_ne_nil _)
          hlast, getLast?_append_left _ _ (by simp)] at hc
        rw [show (([']'] : List Char).getLast? = some ']') from rfl] at hc
        cases hc
        decide
    · unfold journellyParseTasks
      rw [splitLines_pyStrip_joinLines (journellyFormatTasks (t :: rest))
        (by rw [journellyFormatTasks]; simp)
        (journellyFormatTasks_no_newline _ hsafe) ?hh ?hl]
      · exact journellyParseLines_format _ hboth
      case hh =>
        intro c hc
        rw [journellyFormatTasks, interNL_head?_eq _ _ (by simp)] at hc
        rw [show (("* [".toList ++ (formatTs t.timestamp ++
          "] @ -".toList)).head? = some '*') from rfl] at hc
        cases hc
        decide
      case hl =>
        intro c hc
        obtain ⟨tl, hm, hlast⟩ := journellyFormatTasks_getLast t rest
        obtain ⟨hcne, hcnl, hclast⟩ := contentSafe_fields (hsafe tl hm)
        rw [interNL_getLast?_eq _ _ (journellyFormatTasks_lines_ne_nil _)
          hlast, getLast?_append_left _ _ (by cases tl.is_completed <;>
            simp)] at hc
        rw [getLast?_append_left _ _ (by simp)] at hc
        rw [show ((' ' :: tl.content).getLast? = (tl.content).getLast?.getD
          ' ') from List.getLast?_cons] at hc
        cases hg : tl.content.getLast? with
        | none => exact absurd (List.getLast?_eq_none_iff.mp hg) hcne
        | some x =>
          rw [hg] at hc
          have : x = c := by simpa using hc
          subst this
          exact hclast x hg

/-- C3 witness: the amended round trip at a concrete two-task collection. -/
theorem beorg2journelly_C3_witness :
    (([⟨"Buy milk".toList, ⟨2024, 1, 5, 10, 0⟩, false⟩,
        ⟨['a'], ⟨2023, 12, 31, 23, 59⟩, true⟩] : List Task).map
      Task.content).Nodup ∧
    (∀ t ∈ ([⟨"Buy milk".toList, ⟨2024, 1, 5, 10, 0⟩, false⟩,
        ⟨['a'], ⟨2023, 12, 31, 23, 59⟩, true⟩] : List Task),
      contentSafe t.content = true) ∧
    (∀ t ∈ ([⟨"Buy milk".toList, ⟨2024, 1, 5, 10, 0⟩, false⟩,
        ⟨['a'], ⟨2023, 12, 31, 23, 59⟩, true⟩] : List Task),
      validTs t.timestamp = true) ∧
    (beorgParseTasks (joinLines (beorgFormatTasks
        [⟨"Buy milk".toList, ⟨2024, 1, 5, 10, 0⟩, false⟩,
         ⟨['a'], ⟨2023, 12, 31, 23, 59⟩, true⟩])) =
      ([⟨"Buy milk".toList, ⟨2024, 1, 5, 10, 0⟩, false⟩,
        ⟨['a'], ⟨2023, 12, 31, 23, 59⟩, true⟩], []) ∧
     journellyParseTasks (joinLines (journellyFormatTasks
        [⟨"Buy milk".toList, ⟨2024, 1, 5, 10, 0⟩, false⟩,
         ⟨['a'], ⟨2023, 12, 31, 23, 59⟩, true⟩])) =
      ([⟨"Buy milk".toList, ⟨2024, 1, 5, 10, 0⟩, false⟩,
        ⟨['a'], ⟨2023, 12, 31, 23, 59⟩, true⟩], [])) :=
  ⟨by decide, by decide, by decide,
    beorg2journelly_C3 _ (by decide) (by decide) (by decide)⟩

/-! ### Claim C9: the day-of-week token is cosmetic -/

theorem beorgStep_not_header (s : List Char) (next? : Option (List Char))
    (h : (startsWith ("* TODO ".toList) s ||
      startsWith ("* DONE ".toList) s) = false) :
    beorgParseTaskFromLine s next? = (none, 0, []) := by
  unfold beorgParseTaskFromLine
  rw [if_neg]
  simp only [h]
  exact Bool.false_ne_true

theorem bracket_not_header (X : List Char) :
    (startsWith ("* TODO ".toList) ('[' :: X) ||
      startsWith ("* DONE ".toList) ('[' :: X)) = false := rfl

theorem beorgTsMatch_shaped {d4 mo dd w hh mi : List Char} (tail : List Char)
    (hsh : tsShape d4 mo dd hh mi) (hw : w ∈ dowNames) :
    beorgTsMatch ('[' :: (tsCoreText d4 mo dd w hh mi ++ tail)) =
      (expectChar ']' tail).map (fun _ => tsCoreText d4 mo dd w hh mi) := by
  have hcore := matchTsCore_shape tail hsh (dowNames_word _ hw).1
    (dowNames_word _ hw).2
  cases he : expectChar ']' tail with
  | none => simp [beorgTsMatch, hcore, he]
  | some r => simp [beorgTsMatch, hcore, he]

theorem strptimeTs_dow_irrelevant {d4 mo dd hh mi w1 w2 : List Char}
    (hsh : tsShape d4 mo dd hh mi) (h1 : w1 ∈ dowNames)
    (h2 : w2 ∈ dowNames) :
    strptimeTs (tsCoreText d4 mo dd w1 hh mi) =
      strptimeTs (tsCoreText d4 mo dd w2 hh mi) := by
  rw [strptimeTs_shape hsh (dowNames_word _ h1).1 (dowNames_lower _ h1),
    strptimeTs_shape hsh (dowNames_word _ h2).1 (dowNames_lower _ h2)]

theorem beorg_lockstep (n : Nat) : ∀ (ls1 ls2 : List (List Char)),
    ls1.length ≤ n → List.Forall₂ beorgDowEq ls1 ls2 →
    (beorgParseLines ls1).1 = (beorgParseLines ls2).1 := by
  induction n with
  | zero =>
    intro ls1 ls2 hlen hrel
    cases hrel with
    | nil => rfl
    | cons h1 h2 => simp at hlen
  | succ n ih =>
    intro ls1 ls2 hlen hrel
    cases hrel with
    | nil => rfl
    | @cons a b as bs hhd htl =>
      cases htl with
      | nil =>
        rcases hhd with rfl |
          ⟨e4, emo, edd, ew1, ew2, ehh, emi, etail, hsh, hw1, hw2, hs1, hs2⟩
        · rfl
        · have ha := beorgStep_not_header (pyStrip a) none
            (by rw [hs1]; exact bracket_not_header _)
          have hb := beorgStep_not_header (pyStrip b) none
            (by rw [hs2]; exact bracket_not_header _)
          simp [beorgParseLines, ha, hb]
      | @cons a2 b2 as' bs' hhd2 htl2 =>
        have hlen2 : (a2 :: as').length ≤ n := by
          simp at hlen ⊢
          omega
        have hlen3 : as'.length ≤ n := by
          simp at hlen
          omega
        rcases hhd with rfl |
          ⟨e4, emo, edd, ew1, ew2, ehh, emi, etail, hsh, hw1, hw2, hs1, hs2⟩
        · -- heads equal
          cases hW : (startsWith ("* TODO ".toList) (pyStrip a) ||
              startsWith ("* DONE ".toList) (pyStrip a))
          case false =>
            have ha := beorgStep_not_header (pyStrip a) (some a2) hW
            have hb := beorgStep_not_header (pyStrip a) (some b2) hW
            simp only [beorgParseLines, ha, hb]
            simp only [if_pos rfl, Option.toList_none, List.nil_append]
            exact ih (a2 :: as') (b2 :: bs') hlen2
              (List.Forall₂.cons hhd2 htl2)
          case true =>
            rcases hhd2 with rfl |
              ⟨f4, fmo, fdd, fw1, fw2, fhh, fmi, ftail, hsh2, hu1, hu2,
                ht1, ht2⟩
            · -- companions equal: identical steps, recursion differs
              rcases hr : beorgParseTaskFromLine (pyStrip a) (some a2) with
                ⟨t?, consumed, ws⟩
              by_cases h0 : consumed = 0
              · subst h0
                simp only [beorgParseLines, hr, if_pos rfl]
                have := ih (a2 :: as') (a2 :: bs') hlen2
                  (List.Forall₂.cons (Or.inl rfl) htl2)
                simp [this]
              · simp only [beorgParseLines, hr, if_neg h0]
                have := ih as' bs' (by omega) htl2
                simp [this]
            · -- companions timestamp-shaped with swapped dow
              have hm1 : beorgTsMatch (pyStrip a2) =
                  (expectChar ']' ftail).map
                    (fun _ => tsCoreText f4 fmo fdd fw1 fhh fmi) := by
                rw [ht1]
                exact beorgTsMatch_shaped ftail hsh2 hu1
              have hm2 : beorgTsMatch (pyStrip b2) =
                  (expectChar ']' ftail).map
                    (fun _ => tsCoreText f4 fmo fdd fw2 fhh fmi) := by
                rw [ht2]
                exact beorgTsMatch_shaped ftail hsh2 hu2
              have hsame := strptimeTs_dow_irrelevant hsh2 hu1 hu2
              cases he : expectChar ']' ftail with
              | none =>
                have hstep1 : beorgParseTaskFromLine (pyStrip a) (some a2) =
                    (none, 0, [beorgMalformedWarning (pyStrip a)]) := by
                  unfold beorgParseTaskFromLine
                  rw [if_pos hW]
                  simp only [hm1, he, Option.map_none']
                have hstep2 : beorgParseTaskFromLine (pyStrip a) (some b2) =
                    (none, 0, [beorgMalformedWarning (pyStrip a)]) := by
                  unfold beorgParseTaskFromLine
                  rw [if_pos hW]
                  simp only [hm2, he, Option.map_none']
                simp only [beorgParseLines, hstep1, hstep2, if_pos rfl,
                  Option.toList_none, List.nil_append]
                exact ih (a2 :: as') (b2 :: bs') hlen2
                  (List.Forall₂.cons (Or.inr ⟨f4, fmo, fdd, fw1, fw2, fhh,
                    fmi, ftail, hsh2, hu1, hu2, ht1, ht2⟩) htl2)
              | some r0 =>
                cases hts : strptimeTs (tsCoreText f4 fmo fdd fw1 fhh fmi)
                  with
                | none =>
                  have hts2 : strptimeTs (tsCoreText f4 fmo fdd fw2 fhh fmi)
                      = none := by rw [← hsame]; exact hts
                  have hstep1 : beorgParseTaskFromLine (pyStrip a)
                      (some a2) = (none, 0, [beorgInvalidTsWarning
                        (tsCoreText f4 fmo fdd fw1 fhh fmi)]) := by
                    unfold beorgParseTaskFromLine
                    rw [if_pos hW]
                    simp only [hm1, he, Option.map_some', hts]
                  have hstep2 : beorgParseTaskFromLine (pyStrip a)
                      (some b2) = (none, 0, [beorgInvalidTsWarning
                        (tsCoreText f4 fmo fdd fw2 fhh fmi)]) := by
                    unfold beorgParseTaskFromLine
                    rw [if_pos hW]
                    simp only [hm2, he, Option.map_some', hts2]
                  simp only [beorgParseLines, hstep1, hstep2, if_pos rfl,
                    Option.toList_none, List.nil_append]
                  exact ih (a2 :: as') (b2 :: bs') hlen2
                    (List.Forall₂.cons (Or.inr ⟨f4, fmo, fdd, fw1, fw2, fhh,
                      fmi, ftail, hsh2, hu1, hu2, ht1, ht2⟩) htl2)
                | some ts =>
                  have hts2 : strptimeTs (tsCoreText f4 fmo fdd fw2 fhh fmi)
                      = some ts := by rw [← hsame]; exact hts
                  have hstep1 : beorgParseTaskFromLine (pyStrip a)
                      (some a2) = (some ⟨(pyStrip a).drop 7, ts,
                        startsWith ("* DONE ".toList) (pyStrip a)⟩, 1,
                        []) := by
                    unfold beorgParseTaskFromLine
                    rw [if_pos hW]
                    simp only [hm1, he, Option.map_some', hts]
                  have hstep2 : beorgParseTaskFromLine (pyStrip a)
                      (some b2) = (some ⟨(pyStrip a).drop 7, ts,
                        startsWith ("* DONE ".toList) (pyStrip a)⟩, 1,
                        []) := by
                    unfold beorgParseTaskFromLine
                    rw [if_pos hW]
                    simp only [hm2, he, Option.map_some', hts2]
                  simp only [beorgParseLines, hstep1, hstep2]
                  simp only [if_neg (by omega : ¬ (1 = 0))]
                  have := ih as' bs' (by omega) htl2
                  simp [this]
        · -- heads timestamp-shaped: neither is a header
          have ha := beorgStep_not_header (pyStrip a) (some a2)
            (by rw [hs1]; exact bracket_not_header _)
          have hb := beorgStep_not_header (pyStrip b) (some b2)
            (by rw [hs2]; exact bracket_not_header _)
          simp only [beorgParseLines, ha, hb, if_pos rfl,
            Option.toList_none, List.nil_append]
          exact ih (a2 :: as') (b2 :: bs') hlen2
            (List.Forall₂.cons hhd2 htl2)

theorem journellyHeaderMatch_shaped {d4 mo dd w hh mi : List Char}
    (tail : List Char) (hsh : tsShape d4 mo dd hh mi) (hw : w ∈ dowNames) :
    journellyHeaderMatch ('*' :: (' ' :: ('[' ::
        (tsCoreText d4 mo dd w hh mi ++ tail)))) =
      (journellySuffix tail).map (fun _ => tsCoreText d4 mo dd w hh mi) := by
  have hcore := matchTsCore_shape tail hsh (dowNames_word _ hw).1
    (dowNames_word _ hw).2
  unfold journellyHeaderMatch journellySuffix
  simp only [hcore]
  split
  · simp
  · simp

theorem journellyStep_no_header (s : List Char) (next? : Option (List Char))
    (h : journellyHeaderMatch s = none) :
    journellyParseTaskFromLine s next? = (none, 0, []) := by
  unfold journellyParseTaskFromLine
  simp only [h]

theorem star_not_checkbox (X : List Char) :
    (startsWith ("- [ ] ".toList) ('*' :: X) ||
      startsWith ("- [X] ".toList) ('*' :: X)) = false := rfl

theorem journelly_lockstep (n : Nat) : ∀ (ls1 ls2 : List (List Char)),
    ls1.length ≤ n → List.Forall₂ journellyDowEq ls1 ls2 →
    (journellyParseLines ls1).1 = (journellyParseLines ls2).1 := by
  induction n with
  | zero =>
    intro ls1 ls2 hlen hrel
    cases hrel with
    | nil => rfl
    | cons h1 h2 => simp at hlen
  | succ n ih =>
    intro ls1 ls2 hlen hrel
    cases hrel with
    | nil => rfl
    | @cons a b as bs hhd htl =>
      cases htl with
      | nil =>
        rcases hhd with rfl |
          ⟨e4, emo, edd, ew1, ew2, ehh, emi, etail, hsh, hw1, hw2, hs1, hs2⟩
        · rfl
        · have hH1 : journellyHeaderMatch (pyStrip a) =
              (journellySuffix etail).map
                (fun _ => tsCoreText e4 emo edd ew1 ehh emi) := by
            rw [hs1]
            exact journellyHeaderMatch_shaped etail hsh hw1
          have hH2 : journellyHeaderMatch (pyStrip b) =
              (journellySuffix etail).map
                (fun _ => tsCoreText e4 emo edd ew2 ehh emi) := by
            rw [hs2]
            exact journellyHeaderMatch_shaped etail hsh hw2
          have hsame := strptimeTs_dow_irrelevant hsh hw1 hw2
          cases hsfx : journellySuffix etail with
          | none =>
            have ha := journellyStep_no_header (pyStrip a) none
              (by rw [hH1, hsfx]; rfl)
            have hb := journellyStep_no_header (pyStrip b) none
              (by rw [hH2, hsfx]; rfl)
            simp [journellyParseLines, ha, hb]
          | some u =>
            cases hts : strptimeTs (tsCoreText e4 emo edd ew1 ehh emi) with
            | none =>
              have hts2 : strptimeTs (tsCoreText e4 emo edd ew2 ehh emi) =
                  none := by rw [← hsame]; exact hts
              have ha : journellyParseTaskFromLine (pyStrip a) none =
                  (none, 0, [journellyInvalidTsWarning
                    (tsCoreText e4 emo edd ew1 ehh emi)]) := by
                unfold journellyParseTaskFromLine
                simp only [hH1, hsfx, Option.map_some', hts]
              have hb : journellyParseTaskFromLine (pyStrip b) none =
                  (none, 0, [journellyInvalidTsWarning
                    (tsCoreText e4 emo edd ew2 ehh emi)]) := by
                unfold journellyParseTaskFromLine
                simp only [hH2, hsfx, Option.map_some', hts2]
              simp [journellyParseLines, ha, hb]
            | some ts =>
              have hts2 : strptimeTs (tsCoreText e4 emo edd ew2 ehh emi) =
                  some ts := by rw [← hsame]; exact hts
              have ha : journellyParseTaskFromLine (pyStrip a) none =
                  (none, 0, [journellyEofWarning (pyStrip a)]) := by
                unfold journellyParseTaskFromLine
                simp only [hH1, hsfx, Option.map_some', hts]
              have hb : journellyParseTaskFromLine (pyStrip b) none =
                  (none, 0, [journellyEofWarning (pyStrip b)]) := by
                unfold journellyParseTaskFromLine
                simp only [hH2, hsfx, Option.map_some', hts2]
              simp [journellyParseLines, ha, hb]
      | @cons a2 b2 as' bs' hhd2 htl2 =>
        have hlen2 : (a2 :: as').length ≤ n := by
          simp at hlen ⊢
          omega
        have hlen3 : as'.length ≤ n := by
          simp at hlen
          omega
        rcases hhd with rfl |
          ⟨e4, emo, edd, ew1, ew2, ehh, emi, etail, hsh, hw1, hw2, hs1, hs2⟩
        · -- heads equal
          rcases hhd2 with rfl |
            ⟨f4, fmo, fdd, fw1, fw2, fhh, fmi, ftail, hsh2, hu1, hu2,
              ht1, ht2⟩
          · -- companions equal: identical steps
            rcases hr : journellyParseTaskFromLine (pyStrip a) (some a2) with
              ⟨t?, consumed, ws⟩
            by_cases h0 : consumed = 0
            · subst h0
              simp only [journellyParseLines, hr, if_pos rfl]
              have := ih (a2 :: as') (a2 :: bs') hlen2
                (List.Forall₂.cons (Or.inl rfl) htl2)
              simp [this]
            · simp only [journellyParseLines, hr, if_neg h0]
              have := ih as' bs' (by omega) htl2
              simp [this]
          · -- companions shaped: never a checkbox line
            have hrel2 : List.Forall₂ journellyDowEq (a2 :: as')
                (b2 :: bs') := List.Forall₂.cons
              (Or.inr ⟨f4, fmo, fdd, fw1, fw2, fhh, fmi, ftail, hsh2, hu1,
                hu2, ht1, ht2⟩) htl2
            cases hH : journellyHeaderMatch (pyStrip a) with
            | none =>
              have ha := journellyStep_no_header (pyStrip a) (some a2) hH
              have hb := journellyStep_no_header (pyStrip a) (some b2) hH
              simp only [journellyParseLines, ha, hb, if_pos rfl,
                Option.toList_none, List.nil_append]
              exact ih _ _ hlen2 hrel2
            | some g =>
              cases hts : strptimeTs g with
              | none =>
                have ha : journellyParseTaskFromLine (pyStrip a)
                    (some a2) = (none, 0,
                      [journellyInvalidTsWarning g]) := by
                  unfold journellyParseTaskFromLine
                  simp only [hH, hts]
                have hb : journellyParseTaskFromLine (pyStrip a)
                    (some b2) = (none, 0,
                      [journellyInvalidTsWarning g]) := by
                  unfold journellyParseTaskFromLine
                  simp only [hH, hts]
                simp only [journellyParseLines, ha, hb, if_pos rfl,
                  Option.toList_none, List.nil_append]
                exact ih _ _ hlen2 hrel2
              | some ts =>
                have hC1 : (startsWith ("- [ ] ".toList) (pyStrip a2) ||
                    startsWith ("- [X] ".toList) (pyStrip a2)) = false := by
                  rw [ht1]
                  exact star_not_checkbox _
                have hC2 : (startsWith ("- [ ] ".toList) (pyStrip b2) ||
                    startsWith ("- [X] ".toList) (pyStrip b2)) = false := by
                  rw [ht2]
                  exact star_not_checkbox _
                have ha : journellyParseTaskFromLine (pyStrip a)
                    (some a2) = (none, 0,
                      [journellyMalformedWarning (pyStrip a)]) := by
                  unfold journellyParseTaskFromLine
                  simp only [hH, hts]
                  rw [if_neg]
                  simp only [hC1]
                  exact Bool.false_ne_true
                have hb : journellyParseTaskFromLine (pyStrip a)
                    (some b2) = (none, 0,
                      [journellyMalformedWarning (pyStrip a)]) := by
                  unfold journellyParseTaskFromLine
                  simp only [hH, hts]
                  rw [if_neg]
                  simp only [hC2]
                  exact Bool.false_ne_true
                simp only [journellyParseLines, ha, hb, if_pos rfl,
                  Option.toList_none, List.nil_append]
                exact ih _ _ hlen2 hrel2
        · -- heads shaped
          have hH1 : journellyHeaderMatch (pyStrip a) =
              (journellySuffix etail).map
                (fun _ => tsCoreText e4 emo edd ew1 ehh emi) := by
            rw [hs1]
            exact journellyHeaderMatch_shaped etail hsh hw1
          have hH2 : journellyHeaderMatch (pyStrip b) =
              (journellySuffix etail).map
                (fun _ => tsCoreText e4 emo edd ew2 ehh emi) := by
            rw [hs2]
            exact journellyHeaderMatch_shaped etail hsh hw2
          have hsame := strptimeTs_dow_irrelevant hsh hw1 hw2
          cases hsfx : journellySuffix etail with
          | none =>
            have ha := journellyStep_no_header (pyStrip a) (some a2)
              (by rw [hH1, hsfx]; rfl)
            have hb := journellyStep_no_header (pyStrip b) (some b2)
              (by rw [hH2, hsfx]; rfl)
            simp only [journellyParseLines, ha, hb, if_pos rfl,
              Option.toList_none, List.nil_append]
            exact ih _ _ hlen2 (List.Forall₂.cons hhd2 htl2)
          | some u =>
            cases hts : strptimeTs (tsCoreText e4 emo edd ew1 ehh emi) with
            | none =>
              have hts2 : strptimeTs (tsCoreText e4 emo edd ew2 ehh emi) =
                  none := by rw [← hsame]; exact hts
              have ha : journellyParseTaskFromLine (pyStrip a) (some a2) =
                  (none, 0, [journellyInvalidTsWarning
                    (tsCoreText e4 emo edd ew1 ehh emi)]) := by
                unfold journellyParseTaskFromLine
                simp only [hH1, hsfx, Option.map_some', hts]
              have hb : journellyParseTaskFromLine (pyStrip b) (some b2) =
                  (none, 0, [journellyInvalidTsWarning
                    (tsCoreText e4 emo edd ew2 ehh emi)]) := by
                unfold journellyParseTaskFromLine
                simp only [hH2, hsfx, Option.map_some', hts2]
              simp only [journellyParseLines, ha, hb, if_pos rfl,
                Option.toList_none, List.nil_append]
              exact ih _ _ hlen2 (List.Forall₂.cons hhd2 htl2)
            | some ts =>
              have hts2 : strptimeTs (tsCoreText e4 emo edd ew2 ehh emi) =
                  some ts := by rw [← hsame]; exact hts
              rcases hhd2 with rfl |
                ⟨f4, fmo, fdd, fw1, fw2, fhh, fmi, ftail, hsh2, hu1, hu2,
                  ht1, ht2⟩
              · -- companions equal
                cases hC : (startsWith ("- [ ] ".toList) (pyStrip a2) ||
                    startsWith ("- [X] ".toList) (pyStrip a2))
                case false =>
                  have ha : journellyParseTaskFromLine (pyStrip a)
                      (some a2) = (none, 0,
                        [journellyMalformedWarning (pyStrip a)]) := by
                    unfold journellyParseTaskFromLine
                    simp only [hH1, hsfx, Option.map_some', hts]
                    rw [if_neg]
                    simp only [hC]
                    exact Bool.false_ne_true
                  have hb : journellyParseTaskFromLine (pyStrip b)
                      (some a2) = (none, 0,
                        [journellyMalformedWarning (pyStrip b)]) := by
                    unfold journellyParseTaskFromLine
                    simp only [hH2, hsfx, Option.map_some', hts2]
                    rw [if_neg]
                    simp only [hC]
                    exact Bool.false_ne_true
                  simp only [journellyParseLines, ha, hb, if_pos rfl,
                    Option.toList_none, List.nil_append]
                  exact ih _ _ hlen2 (List.Forall₂.cons (Or.inl rfl) htl2)
                case true =>
                  have ha : journellyParseTaskFromLine (pyStrip a)
                      (some a2) = (some ⟨(pyStrip a2).drop 6, ts,
                        startsWith ("- [X] ".toList) (pyStrip a2)⟩, 1,
                        []) := by
                    unfold journellyParseTaskFromLine
                    simp only [hH1, hsfx, Option.map_some', hts]
                    rw [if_pos hC]
                  have hb : journellyParseTaskFromLine (pyStrip b)
                      (some a2) = (some ⟨(pyStrip a2).drop 6, ts,
                        startsWith ("- [X] ".toList) (pyStrip a2)⟩, 1,
                        []) := by
                    unfold journellyParseTaskFromLine
                    simp only [hH2, hsfx, Option.map_some', hts2]
                    rw [if_pos hC]
                  simp only [journellyParseLines, ha, hb]
                  simp only [if_neg (by omega : ¬ (1 = 0))]
                  have := ih as' bs' (by omega) htl2
                  simp [this]
              · -- companions shaped
                have hC1 : (startsWith ("- [ ] ".toList) (pyStrip a2) ||
                    startsWith ("- [X] ".toList) (pyStrip a2)) = false := by
                  rw [ht1]
                  exact star_not_checkbox _
                have hC2 : (startsWith ("- [ ] ".toList) (pyStrip b2) ||
                    startsWith ("- [X] ".toList) (pyStrip b2)) = false := by
                  rw [ht2]
                  exact star_not_checkbox _
                have ha : journellyParseTaskFromLine (pyStrip a)
                    (some a2) = (none, 0,
                      [journellyMalformedWarning (pyStrip a)]) := by
                  unfold journellyParseTaskFromLine
                  simp only [hH1, hsfx, Option.map_some', hts]
                  rw [if_neg]
                  simp only [hC1]
                  exact Bool.false_ne_true
                have hb : journellyParseTaskFromLine (pyStrip b)
                    (some b2) = (none, 0,
                      [journellyMalformedWarning (pyStrip b)]) := by
                  unfold journellyParseTaskFromLine
                  simp only [hH2, hsfx, Option.map_some', hts2]
                  rw [if_neg]
                  simp only [hC2]
                  exact Bool.false_ne_true
                simp only [journellyParseLines, ha, hb, if_pos rfl,
                  Option.toList_none, List.nil_append]
                exact ih _ _ hlen2 (List.Forall₂.cons
                  (Or.inr ⟨f4, fmo, fdd, fw1, fw2, fhh, fmi, ftail, hsh2,
                    hu1, hu2, ht1, ht2⟩) htl2)

/-- C9: the day-of-week token of a timestamp is cosmetic.  Two inputs (in
either format) whose lines are equal except that timestamp lines may carry
different valid weekday abbreviations parse to identical task lists; the
parsed timestamp value depends only on the numeric fields (`strptimeTs` of
two cores differing only in valid weekday tokens agree); and serialization
regenerates the weekday token from the date fields (`formatTs` embeds
`dowAbbrev year month day`). -/
theorem beorg2journelly_C9 :
    (∀ t1 t2 : List Char,
      List.Forall₂ beorgDowEq (splitLines (pyStrip t1))
        (splitLines (pyStrip t2)) →
      (beorgParseTasks t1).1 = (beorgParseTasks t2).1) ∧
    (∀ t1 t2 : List Char,
      List.Forall₂ journellyDowEq (splitLines (pyStrip t1))
        (splitLines (pyStrip t2)) →
      (journellyParseTasks t1).1 = (journellyParseTasks t2).1) ∧
    (∀ d4 mo dd hh mi w1 w2 : List Char, tsShape d4 mo dd hh mi →
      w1 ∈ dowNames → w2 ∈ dowNames →
      strptimeTs (tsCoreText d4 mo dd w1 hh mi) =
        strptimeTs (tsCoreText d4 mo dd w2 hh mi)) ∧
    (∀ ts : Timestamp, formatTs ts = tsCoreText (nat4 ts.year)
      (nat2 ts.month) (nat2 ts.day) (dowAbbrev ts.year ts.month ts.day)
      (nat2 ts.hour) (nat2 ts.minute)) := by
  refine ⟨?_, ?_, ?_, ?_⟩
  · intro t1 t2 hrel
    exact beorg_lockstep (splitLines (pyStrip t1)).length _ _ le_rfl hrel
  · intro t1 t2 hrel
    exact journelly_lockstep (splitLines (pyStrip t1)).length _ _ le_rfl hrel
  · intro d4 mo dd hh mi w1 w2 hsh h1 h2
    exact strptimeTs_dow_irrelevant hsh h1 h2
  · intro ts
    exact formatTs_eq ts

/-- C9 witness: two BeOrg inputs identical except for the weekday token
(`Mon` vs `Tue`, the latter inconsistent with 2024-01-01) parse to the
same task list. -/
theorem beorg2journelly_C9_witness :
    List.Forall₂ beorgDowEq
      (splitLines (pyStrip ("* TODO x\n[2024-01-01 Mon 10:00]".toList)))
      (splitLines (pyStrip ("* TODO x\n[2024-01-01 Tue 10:00]".toList))) ∧
    (beorgParseTasks ("* TODO x\n[2024-01-01 Mon 10:00]".toList)).1 =
      (beorgParseTasks ("* TODO x\n[2024-01-01 Tue 10:00]".toList)).1 := by
  have h2 : beorgDowEq ("[2024-01-01 Mon 10:00]".toList)
      ("[2024-01-01 Tue 10:00]".toList) :=
    Or.inr ⟨"2024".toList, "01".toList, "01".toList, "Mon".toList,
      "Tue".toList, "10".toList, "00".toList, "]".toList,
      ⟨⟨by decide, by decide⟩, ⟨by decide, by decide⟩, ⟨by decide, by decide⟩,
        ⟨by decide, by decide⟩, ⟨by decide, by decide⟩⟩,
      by decide, by decide, by decide, by decide⟩
  have hrel : List.Forall₂ beorgDowEq
      (splitLines (pyStrip ("* TODO x\n[2024-01-01 Mon 10:00]".toList)))
      (splitLines (pyStrip ("* TODO x\n[2024-01-01 Tue 10:00]".toList))) := by
    have heq1 : splitLines (pyStrip
        ("* TODO x\n[2024-01-01 Mon 10:00]".toList)) =
        [("* TODO x".toList), ("[2024-01-01 Mon 10:00]".toList)] := by
      decide
    have heq2 : splitLines (pyStrip
        ("* TODO x\n[2024-01-01 Tue 10:00]".toList)) =
        [("* TODO x".toList), ("[2024-01-01 Tue 10:00]".toList)] := by
      decide
    rw [heq1, heq2]
    exact List.Forall₂.cons (Or.inl rfl)
      (List.Forall₂.cons h2 List.Forall₂.nil)
  exact ⟨hrel, beorg2journelly_C9.1 _ _ hrel⟩
